import Mathlib

/-!
Verification of the robot-war battle engine specification against a shallow
embedding of the Python sources under src/robot_war.

Conventions of the embedding:
* Python strings are embedded as lists of characters (`Str := List Char`);
  the helper functions pySplit, pyStrip, pyFind, pyRFind, pySlice mirror the
  corresponding Python str methods used by the sources.
* Python dicts keyed by grid positions are embedded as association lists with
  Python insertion/update semantics (update in place, delete removes, new
  keys appended).
* Machine integers are `Int`; Python floor division `//` is `Int.fdiv`;
  Python `%` on naturals is Nat `%`.
* The single Python random source (random.choice in RM moves) is embedded as
  an injected stream of directions carried in the game state, as the design
  notes of the specification themselves prescribe for reproducibility.
* The per-turn combat log of human readable strings and the robot display
  name are omitted: no verified property mentions them and they feed no
  control flow.
* Python float arithmetic inside has_line_of_sight (x_step = dx/steps and
  round of float products) is embedded with exact rational arithmetic and
  the Python round function (half to even). IEEE double rounding error can
  flip samples whose exact value lands exactly on a half integer; this is
  the reason the line-of-sight claim itself is treated as not statable,
  while the functions below keep the exact-rational reading.
-/

set_option maxRecDepth 4000

namespace RobotWar

/-- Python strings, embedded as character lists. -/
abbrev Str := List Char

/-- Whitespace recognised by the Python str.strip default. -/
def isPyWS (c : Char) : Bool :=
  c = ' ' || c = '\t' || c = '\n' || c = '\r'

/-- Python str.strip with the default whitespace set. -/
def pyStrip (s : Str) : Str :=
  ((s.dropWhile isPyWS).reverse.dropWhile isPyWS).reverse

/-- Python str.upper, ASCII letters only as used by the sources. -/
def pyUpper (s : Str) : Str := s.map Char.toUpper

/-- Helper for pySplit: accumulates the current chunk in reverse. -/
def pySplitAux (c : Char) : Str → Str → List Str
  | [], acc => [acc.reverse]
  | x :: rest, acc =>
    if x = c then acc.reverse :: pySplitAux c rest []
    else pySplitAux c rest (x :: acc)

/-- Python str.split on a single separator character. -/
def pySplit (c : Char) (s : Str) : List Str := pySplitAux c s []

/-- Helper for pyFind carrying the current index. -/
def pyFindAux (c : Char) : Str → Int → Int
  | [], _ => -1
  | x :: rest, i => if x = c then i else pyFindAux c rest (i + 1)

/-- Python str.find: index of the first occurrence, -1 when absent. -/
def pyFind (c : Char) (s : Str) : Int := pyFindAux c s 0

/-- Helper for pyRFind carrying current index and best match so far. -/
def pyRFindAux (c : Char) : Str → Int → Int → Int
  | [], _, best => best
  | x :: rest, i, best => pyRFindAux c rest (i + 1) (if x = c then i else best)

/-- Python str.rfind: index of the last occurrence, -1 when absent. -/
def pyRFind (c : Char) (s : Str) : Int := pyRFindAux c s 0 (-1)

/-- Normalise a Python slice endpoint to an absolute position. -/
def pyIdxNorm (len : Nat) (i : Int) : Nat :=
  if i < 0 then (max ((len : Int) + i) 0).toNat else (min i (len : Int)).toNat

/-- Python slice s[a:b] including negative-index normalisation. -/
def pySlice (s : Str) (a b : Int) : Str :=
  (s.take (pyIdxNorm s.length b)).drop (pyIdxNorm s.length a)

/-- Python str.rstrip applied to the single character ) as in the parser. -/
def pyRStripParen (s : Str) : Str :=
  (s.reverse.dropWhile (· = ')')).reverse

/-- The eight compass directions of arena.py with their Python enum order. -/
inductive Direction
  | N | NE | E | SE | S | SW | W | NW
  deriving DecidableEq, Repr

/-- Offsets of the Direction enum members in arena.py. -/
def Direction.offset : Direction → Int × Int
  | .N => (0, -1)
  | .NE => (1, -1)
  | .E => (1, 0)
  | .SE => (1, 1)
  | .S => (0, 1)
  | .SW => (-1, 1)
  | .W => (-1, 0)
  | .NW => (-1, -1)

/-- Python Direction[name] lookup used by the DM parser. -/
def directionOfName (s : Str) : Option Direction :=
  if s = "N".toList then some .N
  else if s = "NE".toList then some .NE
  else if s = "E".toList then some .E
  else if s = "SE".toList then some .SE
  else if s = "S".toList then some .S
  else if s = "SW".toList then some .SW
  else if s = "W".toList then some .W
  else if s = "NW".toList then some .NW
  else none

/-- The enum members of arena.py Direction in declaration order. -/
def allDirections : List Direction :=
  [.N, .NE, .E, .SE, .S, .SW, .W, .NW]

/-- The loop of get_move_towards: first enum member with the given offset. -/
def directionFromOffset (off : Int × Int) : Option Direction :=
  (allDirections.filter (fun d => d.offset = off)).head?

/-- The instruction mnemonics of instructions.py. -/
inductive InstructionType
  | DM | RM | PM | AM | MI | IN | FR | FC | PT
  deriving DecidableEq, Repr

/-- Python InstructionType[name] lookup by enum member name. -/
def instructionTypeOfName (s : Str) : Option InstructionType :=
  if s = "DM".toList then some .DM
  else if s = "RM".toList then some .RM
  else if s = "PM".toList then some .PM
  else if s = "AM".toList then some .AM
  else if s = "MI".toList then some .MI
  else if s = "IN".toList then some .IN
  else if s = "FR".toList then some .FR
  else if s = "FC".toList then some .FC
  else if s = "PT".toList then some .PT
  else none

/-- A parsed instruction: type tag, optional DM direction, optional PT pair
of branch strings, as in instructions.py Instruction. -/
structure Instruction where
  type : InstructionType
  direction : Option Direction := none
  parameter : Option (Str × Str) := none
  deriving DecidableEq, Repr

namespace InstructionSet

/-- ENERGY_COSTS table of instructions.py. -/
def energyCost : InstructionType → Int
  | .DM => 5
  | .RM => 5
  | .PM => 10
  | .MI => 200
  | .IN => 200
  | .AM => 15
  | .FR => 100
  | .FC => 100
  | .PT => 4

/-- DAMAGE_VALUES table of instructions.py, with the dict .get default 0. -/
def damageValue : InstructionType → Int
  | .MI => 200
  | .FR => 200
  | .FC => 200
  | _ => 0

/-- Keys of ENERGY_COSTS in dict insertion order. -/
def allTypes : List InstructionType :=
  [.DM, .RM, .PM, .MI, .IN, .AM, .FR, .FC, .PT]

/-- max(ENERGY_COSTS.values()) as read by Robot creation. -/
def maxCost : Int :=
  ((allTypes.map energyCost).foldl max 0)

/-- The depth-aware comma split loop of the PT branch of parse_instruction.
Arguments: remaining input, paren_depth, current_action in reverse, actions
accumulated so far. -/
def ptSplitLoop : Str → Int → Str → List Str → List Str
  | [], _, cur, acts =>
    if pyStrip cur.reverse ≠ [] then acts ++ [pyStrip cur.reverse] else acts
  | ch :: rest, depth, cur, acts =>
    if ch = '(' then ptSplitLoop rest (depth + 1) (ch :: cur) acts
    else if ch = ')' then ptSplitLoop rest (depth - 1) (ch :: cur) acts
    else if ch = ',' ∧ depth = 0 then
      ptSplitLoop rest depth [] (acts ++ [pyStrip cur.reverse])
    else ptSplitLoop rest depth (ch :: cur) acts

/-- Split of the PT parenthesised content on top-level commas. -/
def ptSplit (s : Str) : List Str := ptSplitLoop s 0 [] []

/-- parse_instruction of instructions.py. -/
def parse_instruction (instruction_str : Str) : Option Instruction :=
  let parts := pySplit '(' instruction_str
  let instruction_name := pyUpper (pyStrip (parts.headD []))
  match instructionTypeOfName instruction_name with
  | none => none
  | some ty =>
    if parts.length > 1 then
      if ty = .DM then
        let direction_str := pyUpper (pyStrip (pyRStripParen (parts.getD 1 [])))
        match directionOfName direction_str with
        | none => none
        | some d => some { type := ty, direction := some d }
      else if ty = .PT then
        let full_content :=
          pySlice instruction_str (pyFind '(' instruction_str + 1)
            (pyRFind ')' instruction_str)
        let actions := ptSplit full_content
        if actions.length = 2 ∧ actions.all (· ≠ []) then
          some { type := ty, parameter := some (actions.getD 0 [], actions.getD 1 []) }
        else none
      else some { type := ty }
    else
      if ty = .PT then none
      else some { type := ty }

end InstructionSet

/-- Robot status machine of robot.py. -/
inductive RobotStatus
  | alive | dead | invisible | frozen
  deriving DecidableEq, Repr

/-- Robot state of robot.py; the display name is omitted (log only). -/
structure Robot where
  player_id : Int
  x : Int
  y : Int
  energy : Int
  max_energy : Int
  program : List Str
  program_counter : Nat
  status : RobotStatus
  invisible_turns : Int
  emergency_action : Option Str
  emergency_energy_threshold : Int
  deriving DecidableEq, Repr

/-- Robot constructor mirroring Robot.__init__: the emergency threshold is
fixed at creation as max(ENERGY_COSTS.values()) + 10. -/
def Robot.new (player_id x y energy : Int) : Robot :=
  { player_id := player_id
    x := x
    y := y
    energy := energy
    max_energy := energy
    program := []
    program_counter := 0
    status := .alive
    invisible_turns := 0
    emergency_action := none
    emergency_energy_threshold := InstructionSet.maxCost + 10 }

/-- Robot.get_current_instruction. An out-of-range counter, impossible in
battle, maps to none where Python would raise. -/
def Robot.get_current_instruction (r : Robot) : Option Str :=
  r.program.get? r.program_counter

/-- Robot.advance_program_counter. -/
def Robot.advance_program_counter (r : Robot) : Robot :=
  if r.program ≠ [] then
    { r with program_counter := (r.program_counter + 1) % r.program.length }
  else r

/-- Robot.take_damage: subtract, flip to dead at or below zero. Note no
floor at zero is applied by the source. -/
def Robot.take_damage (r : Robot) (damage : Int) : Robot :=
  let e := r.energy - damage
  { r with energy := e, status := if e ≤ 0 then .dead else r.status }

/-- Robot.use_energy: refuse without mutation when unaffordable, otherwise
deduct and flip to dead at or below zero. -/
def Robot.use_energy (r : Robot) (cost : Int) : Bool × Robot :=
  if r.energy ≥ cost then
    let e := r.energy - cost
    (true, { r with energy := e, status := if e ≤ 0 then .dead else r.status })
  else (false, r)

/-- Robot.set_invisible. -/
def Robot.set_invisible (r : Robot) (turns : Int) : Robot :=
  { r with status := .invisible, invisible_turns := turns }

/-- Robot.update_invisibility. -/
def Robot.update_invisibility (r : Robot) : Robot :=
  if r.status = .invisible then
    let t := r.invisible_turns - 1
    if t ≤ 0 then { r with invisible_turns := t, status := .alive }
    else { r with invisible_turns := t }
  else r

/-- Robot.is_alive: frozen and invisible robots are alive. -/
def Robot.is_alive (r : Robot) : Bool := r.status ≠ .dead

/-- Robot.can_execute: neither dead nor frozen. -/
def Robot.can_execute (r : Robot) : Bool :=
  !(r.status = .dead) && !(r.status = .frozen)

/-- Robot.set_position. -/
def Robot.set_position (r : Robot) (x y : Int) : Robot :=
  { r with x := x, y := y }

/-! ### Association lists with Python dict semantics -/

/-- Dict lookup. -/
def alGet {κ α : Type} [DecidableEq κ] (k : κ) : List (κ × α) → Option α
  | [] => none
  | (k', v) :: rest => if k' = k then some v else alGet k rest

/-- Dict assignment: update in place on an existing key, append otherwise,
matching Python dict insertion-order semantics. -/
def alSet {κ α : Type} [DecidableEq κ] (k : κ) (v : α) : List (κ × α) → List (κ × α)
  | [] => [(k, v)]
  | (k', v') :: rest =>
    if k' = k then (k, v) :: rest else (k', v') :: alSet k v rest

/-- Dict deletion of at most one binding (dict keys are unique). -/
def alDel {κ α : Type} [DecidableEq κ] (k : κ) : List (κ × α) → List (κ × α)
  | [] => []
  | (k', v') :: rest =>
    if k' = k then rest else (k', v') :: alDel k rest

/-! ### Arena -/

/-- Cell tags of arena.py (MINE is declared but never stored in the grid). -/
inductive CellType
  | empty | obstacle | mine | dead_robot
  deriving DecidableEq, Repr

/-- Arena of arena.py. The dense all-EMPTY grid is embedded sparsely with
EMPTY as the default cell; mines map positions to (mine_id, damage); the
occupancy dict maps positions to roster indices where Python stores the
robot objects themselves. -/
structure Arena where
  width : Int
  height : Int
  grid : List ((Int × Int) × CellType)
  mines : List ((Int × Int) × (Int × Int))
  robotsAt : List ((Int × Int) × Nat)
  deriving DecidableEq, Repr

/-- Arena.is_valid_position. -/
def Arena.is_valid_position (a : Arena) (x y : Int) : Bool :=
  decide (0 ≤ x ∧ x < a.width ∧ 0 ≤ y ∧ y < a.height)

/-- The grid cell at a position, defaulting to EMPTY. -/
def Arena.cellAt (a : Arena) (x y : Int) : CellType :=
  (alGet (x, y) a.grid).getD .empty

/-- Arena.is_passable: in bounds and neither OBSTACLE nor DEAD_ROBOT;
independent of mines and of robot occupancy. -/
def Arena.is_passable (a : Arena) (x y : Int) : Bool :=
  if !a.is_valid_position x y then false
  else !(a.cellAt x y = .obstacle) && !(a.cellAt x y = .dead_robot)

/-- Arena.place_obstacle. -/
def Arena.place_obstacle (a : Arena) (x y : Int) : Arena :=
  if a.is_valid_position x y then
    { a with grid := alSet (x, y) .obstacle a.grid }
  else a

/-- Arena.place_dead_robot: the wreck marker. -/
def Arena.place_dead_robot (a : Arena) (x y : Int) : Arena :=
  if a.is_valid_position x y then
    { a with grid := alSet (x, y) .dead_robot a.grid }
  else a

/-- Arena.place_mine: ownership is encoded as owner_id * 10. -/
def Arena.place_mine (a : Arena) (x y : Int) (owner_id : Int) (damage : Int) : Arena :=
  if a.is_valid_position x y then
    { a with mines := alSet (x, y) (owner_id * 10, damage) a.mines }
  else a

/-- Arena.has_mine. -/
def Arena.has_mine (a : Arena) (x y : Int) : Bool :=
  (alGet (x, y) a.mines).isSome

/-- Arena.trigger_mine: remove and return the (mine_id, damage) pair. -/
def Arena.trigger_mine (a : Arena) (x y : Int) : Option (Int × Int) × Arena :=
  match alGet (x, y) a.mines with
  | some md => (some md, { a with mines := alDel (x, y) a.mines })
  | none => (none, a)

/-- Arena.get_direction_offset. -/
def Arena.get_direction_offset (_ : Arena) (d : Direction) : Int × Int :=
  d.offset

/-- Arena.get_move_towards: clamp each axis delta to -1/0/1 and return the
first Direction member with that offset, none when source equals target. -/
def Arena.get_move_towards (_ : Arena) (from_x from_y to_x to_y : Int) : Option Direction :=
  let dx := to_x - from_x
  let dy := to_y - from_y
  if dx = 0 ∧ dy = 0 then none
  else directionFromOffset (max (-1) (min 1 dx), max (-1) (min 1 dy))

/-- Arena.get_move_away: invert the towards direction. -/
def Arena.get_move_away (a : Arena) (from_x from_y avoid_x avoid_y : Int) : Option Direction :=
  match a.get_move_towards from_x from_y avoid_x avoid_y with
  | none => none
  | some d => directionFromOffset (-d.offset.1, -d.offset.2)

/-! ### Game state and the battle engine -/

/-- Game phases of game_state.py. -/
inductive GamePhase
  | setup | programming | battle | finished
  deriving DecidableEq, Repr

/-- Battle state of game_state.py. Setup-only configuration fields
(num_players, program_length, starting_energy, num_obstacles) and the
transient combat log are omitted; rng is the injected stream standing for
the Python global random source consumed by RM moves. -/
structure GameState where
  arena : Arena
  robots : List Robot
  phase : GamePhase
  current_turn : Int
  max_turns : Int
  proximity_distance : Int
  winner_id : Option Int
  rng : List Direction
  deriving DecidableEq, Repr

/-- Inert default robot returned by out-of-range roster reads; battle code
never reads out of range. -/
def defaultRobot : Robot := Robot.new 0 0 0 0

/-- Read a roster entry. -/
def GameState.getRobot (gs : GameState) (i : Nat) : Robot :=
  gs.robots.getD i defaultRobot

/-- Write a roster entry (Python mutates the aliased object in place). -/
def GameState.setRobot (gs : GameState) (i : Nat) (r : Robot) : GameState :=
  { gs with robots := gs.robots.set i r }

/-- In-place mutation of one robot. -/
def GameState.modifyRobot (gs : GameState) (i : Nat) (f : Robot → Robot) : GameState :=
  gs.setRobot i (f (gs.getRobot i))

/-- get_living_robots as a list of robot values (used by winner logic). -/
def GameState.get_living_robots (gs : GameState) : List Robot :=
  gs.robots.filter (·.is_alive)

/-- The roster indices of living robots, in roster order: the embedding of
the Python list of aliased robot objects returned by get_living_robots. -/
def GameState.livingIdx (gs : GameState) : List Nat :=
  (List.range gs.robots.length).filter (fun i => (gs.getRobot i).is_alive)

/-- get_random_direction: pop the injected random stream. -/
def GameState.get_random_direction (gs : GameState) : Direction × GameState :=
  match gs.rng with
  | [] => (.N, gs)
  | d :: rest => (d, { gs with rng := rest })

/-- _handle_robot_death: drop the death cell from occupancy and write a
wreck there. -/
def GameState.handle_robot_death (gs : GameState) (i : Nat) : GameState :=
  let r := gs.getRobot i
  let a := gs.arena
  let a :=
    if (alGet (r.x, r.y) a.robotsAt).isSome then
      { a with robotsAt := alDel (r.x, r.y) a.robotsAt }
    else a
  { gs with arena := a.place_dead_robot r.x r.y }

/-- _place_mine: no-op when the current cell already holds a mine. -/
def GameState.place_mine (gs : GameState) (i : Nat) : GameState :=
  let r := gs.getRobot i
  if gs.arena.has_mine r.x r.y then gs
  else
    { gs with arena :=
        gs.arena.place_mine r.x r.y r.player_id (InstructionSet.damageValue .MI) }

/-- _move_robot: destination from the direction offset; no-op when out of
bounds, impassable or occupied; own mines block with the mine restored;
enemy mines are consumed after the move with damage applied immediately. -/
def GameState.move_robot (gs : GameState) (i : Nat) : Option Direction → GameState
  | none => gs
  | some d =>
    let r := gs.getRobot i
    let nx := r.x + d.offset.1
    let ny := r.y + d.offset.2
    if !gs.arena.is_passable nx ny then gs
    else if (alGet (nx, ny) gs.arena.robotsAt).isSome then gs
    else if gs.arena.has_mine nx ny then
      match gs.arena.trigger_mine nx ny with
      | (some (mine_id, damage), a') =>
        let gs1 := { gs with arena := a' }
        let mine_owner := mine_id.fdiv 10
        if mine_owner = r.player_id then
          { gs1 with arena := gs1.arena.place_mine nx ny r.player_id damage }
        else
          let a2 := { gs1.arena with
            robotsAt := alSet (nx, ny) i (alDel (r.x, r.y) gs1.arena.robotsAt) }
          let gs2 := ({ gs1 with arena := a2 }).modifyRobot i (·.set_position nx ny)
          let was_alive := (gs2.getRobot i).is_alive
          let gs3 := gs2.modifyRobot i (·.take_damage damage)
          if was_alive && !(gs3.getRobot i).is_alive then gs3.handle_robot_death i
          else gs3
      | (none, a') =>
        let gs1 := { gs with arena := a' }
        let a2 := { gs1.arena with
          robotsAt := alSet (nx, ny) i (alDel (r.x, r.y) gs1.arena.robotsAt) }
        ({ gs1 with arena := a2 }).modifyRobot i (·.set_position nx ny)
    else
      let a2 := { gs.arena with
        robotsAt := alSet (nx, ny) i (alDel (r.x, r.y) gs.arena.robotsAt) }
      ({ gs with arena := a2 }).modifyRobot i (·.set_position nx ny)

/-- One scan direction of _fire_row and _fire_column. The current cell is
(cx, cy); each step advances by (dx, dy), up to the remaining fuel that
starts at the proximity range. An out-of-bounds or impassable cell stops
the scan; an enemy occupant is damaged (with death handling) and stops the
scan; a same-side occupant or an empty cell lets the scan continue. -/
def GameState.fireDir (gs : GameState) (shooter_pid cx cy dx dy damage : Int) :
    Nat → GameState
  | 0 => gs
  | fuel + 1 =>
    let tx := cx + dx
    let ty := cy + dy
    if !gs.arena.is_valid_position tx ty then gs
    else if !gs.arena.is_passable tx ty then gs
    else
      match alGet (tx, ty) gs.arena.robotsAt with
      | some j =>
        if (gs.getRobot j).player_id ≠ shooter_pid then
          let was_alive := (gs.getRobot j).is_alive
          let gs1 := gs.modifyRobot j (·.take_damage damage)
          if was_alive && !(gs1.getRobot j).is_alive then gs1.handle_robot_death j
          else gs1
        else gs.fireDir shooter_pid tx ty dx dy damage fuel
      | none => gs.fireDir shooter_pid tx ty dx dy damage fuel

/-- _fire_row: scan left then right from the shooter position, each bounded
by the proximity distance. -/
def GameState.fire_row (gs : GameState) (i : Nat) : GameState :=
  let r := gs.getRobot i
  let max_range := gs.proximity_distance.toNat
  let damage := InstructionSet.damageValue .FR
  let gs1 := gs.fireDir r.player_id r.x r.y (-1) 0 damage max_range
  gs1.fireDir r.player_id r.x r.y 1 0 damage max_range

/-- _fire_column: scan up then down from the shooter position. -/
def GameState.fire_column (gs : GameState) (i : Nat) : GameState :=
  let r := gs.getRobot i
  let max_range := gs.proximity_distance.toNat
  let damage := InstructionSet.damageValue .FC
  let gs1 := gs.fireDir r.player_id r.x r.y 0 (-1) damage max_range
  gs1.fireDir r.player_id r.x r.y 0 1 damage max_range

/-- Manhattan distance as computed by the sources. -/
def manhattan (x1 y1 x2 y2 : Int) : Int :=
  ((x1 - x2).natAbs : Int) + ((y1 - y2).natAbs : Int)

/-- _find_nearest_enemy: first living robot of a different side, skipping
invisible robots, at strictly smallest Manhattan distance in roster order.
Returns the roster index. -/
def GameState.find_nearest_enemy (gs : GameState) (i : Nat) : Option Nat :=
  let r := gs.getRobot i
  let step := fun (best : Option (Nat × Int)) (j : Nat) =>
    let o := gs.getRobot j
    if o.player_id = r.player_id then best
    else if o.status = .invisible then best
    else
      let dist := manhattan r.x r.y o.x o.y
      match best with
      | none => some (j, dist)
      | some (bj, bd) => if dist < bd then some (j, dist) else some (bj, bd)
  ((gs.livingIdx).foldl step none).map (·.1)

/-- _get_direction_to_nearest_enemy. -/
def GameState.get_direction_to_nearest_enemy (gs : GameState) (i : Nat) : Option Direction :=
  match gs.find_nearest_enemy i with
  | none => none
  | some j =>
    let r := gs.getRobot i
    let e := gs.getRobot j
    gs.arena.get_move_towards r.x r.y e.x e.y

/-- _get_direction_from_nearest_enemy. -/
def GameState.get_direction_from_nearest_enemy (gs : GameState) (i : Nat) : Option Direction :=
  match gs.find_nearest_enemy i with
  | none => none
  | some j =>
    let r := gs.getRobot i
    let e := gs.getRobot j
    gs.arena.get_move_away r.x r.y e.x e.y

/-- Exact rational value of a Python float expression, kept unnormalised as
a numerator with positive denominator. -/
structure PyRat where
  num : Int
  den : Int
  deriving DecidableEq, Repr

/-- Scale a step rational by the sample index (x_step * i in the source). -/
def PyRat.mulNat (q : PyRat) (i : Nat) : PyRat :=
  { num := q.num * (i : Int), den := q.den }

/-- Python round applied to an exact rational value: nearest integer, ties
to the even neighbour (a zero denominator never arises in the sources). -/
def pyRound (q : PyRat) : Int :=
  if q.den ≤ 0 then 0
  else
    let f := q.num.fdiv q.den
    let r := q.num - f * q.den
    if 2 * r > q.den then f + 1
    else if 2 * r < q.den then f
    else if f % 2 = 0 then f else f + 1

/-- The sampling loop of _has_line_of_sight: samples i, i+1, ... while fuel
remains; an out-of-bounds sample fails, the destination sample succeeds
without a passability check, an impassable intermediate sample fails. -/
def GameState.losWalk (gs : GameState) (tx ty fx fy : Int) (xs ys : PyRat) :
    Nat → Nat → Bool
  | _, 0 => true
  | i, rem + 1 =>
    let x := fx + pyRound (xs.mulNat i)
    let y := fy + pyRound (ys.mulNat i)
    if !gs.arena.is_valid_position x y then false
    else if x = tx ∧ y = ty then true
    else if !gs.arena.is_passable x y then false
    else gs.losWalk tx ty fx fy xs ys (i + 1) rem

/-- _has_line_of_sight with the float interpolation read exactly over the
rationals (see the header note on IEEE rounding). -/
def GameState.has_line_of_sight (gs : GameState) (from_x from_y to_x to_y : Int) : Bool :=
  if from_x = to_x ∧ from_y = to_y then true
  else
    let dx := to_x - from_x
    let dy := to_y - from_y
    let steps : Nat := max dx.natAbs dy.natAbs
    let x_step : PyRat :=
      if steps > 0 then { num := dx, den := (steps : Int) } else { num := 0, den := 1 }
    let y_step : PyRat :=
      if steps > 0 then { num := dy, den := (steps : Int) } else { num := 0, den := 1 }
    gs.losWalk to_x to_y from_x from_y x_step y_step 1 steps

/-- _check_proximity: some living robot of a different side, neither
invisible nor frozen, within the proximity distance and in line of sight. -/
def GameState.check_proximity (gs : GameState) (i : Nat) : Bool :=
  let r := gs.getRobot i
  (gs.livingIdx).any fun j =>
    let o := gs.getRobot j
    !(o.player_id = r.player_id) &&
    !(o.status = .invisible ∨ o.status = .frozen) &&
    (manhattan r.x r.y o.x o.y ≤ gs.proximity_distance) &&
    gs.has_line_of_sight r.x r.y o.x o.y

/-- _execute_single_instruction, with a fuel budget bounding the PT nesting
depth (finite for every parsed source string; call sites pass one more than
the instruction string length). The body of the helper
_execute_proximity_test_conditional is inlined in the PT arm so that the
recursion stays structural: the PT cost is already charged by dispatch; pick
the branch by proximity, parse it, and execute it only when currently
affordable, charging its own cost; otherwise silently no-op. -/
def GameState.execute_single_instruction (gs : GameState) (i : Nat)
    (instr : Instruction) : Nat → GameState
  | 0 => gs
  | fuel + 1 =>
    match instr.type with
    | .DM => gs.move_robot i instr.direction
    | .RM =>
      let (d, gs') := gs.get_random_direction
      gs'.move_robot i (some d)
    | .IN => gs.modifyRobot i (·.set_invisible 1)
    | .MI => gs.place_mine i
    | .PM => gs.move_robot i (gs.get_direction_to_nearest_enemy i)
    | .AM => gs.move_robot i (gs.get_direction_from_nearest_enemy i)
    | .PT =>
      match instr.parameter with
      | none => gs
      | some (action_if_true, action_if_false) =>
        let chosen := if gs.check_proximity i then action_if_true else action_if_false
        match InstructionSet.parse_instruction chosen with
        | none => gs
        | some ci =>
          let action_cost := InstructionSet.energyCost ci.type
          let r := gs.getRobot i
          let (ok, r') := r.use_energy action_cost
          if ok then (gs.setRobot i r').execute_single_instruction i ci fuel
          else gs
    | .FR => gs.fire_row i
    | .FC => gs.fire_column i

/-- _execute_emergency_routine: freeze when the emergency action is
unaffordable; otherwise charge it, execute it, and handle a death caused by
the charge afterwards (the Python death check runs after the effect). -/
def GameState.execute_emergency_routine (gs : GameState) (i : Nat) : GameState :=
  let r := gs.getRobot i
  match r.emergency_action with
  | none => gs
  | some ea =>
    match InstructionSet.parse_instruction ea with
    | none => gs
    | some ei =>
      let emergency_cost := InstructionSet.energyCost ei.type
      if r.energy ≥ emergency_cost then
        let was_alive := r.is_alive
        let (ok, r') := r.use_energy emergency_cost
        if ok then
          let gs1 := (gs.setRobot i r').execute_single_instruction i ei (ea.length + 1)
          if was_alive && !(gs1.getRobot i).is_alive then gs1.handle_robot_death i
          else gs1
        else gs
      else gs.modifyRobot i (fun rr => { rr with status := .frozen })

/-- The per-robot body of _execute_robot_instructions: skip dead, frozen,
instruction-less and unparseable robots; route to the emergency path when
the instruction is unaffordable or energy is at or below the emergency
threshold; otherwise charge the cost, handle an immediate death, and
execute the effect. -/
def GameState.dispatchOne (gs : GameState) (i : Nat) : GameState :=
  let r := gs.getRobot i
  if !r.is_alive then gs
  else if !r.can_execute then gs
  else
    match r.get_current_instruction with
    | none => gs
    | some instruction_str =>
      if instruction_str = [] then gs
      else
        match InstructionSet.parse_instruction instruction_str with
        | none => gs
        | some instruction =>
          let energy_cost := InstructionSet.energyCost instruction.type
          if r.energy < energy_cost ∨ r.energy ≤ r.emergency_energy_threshold then
            if r.emergency_action.isSome then gs.execute_emergency_routine i
            else gs.modifyRobot i (fun rr => { rr with status := .frozen })
          else
            let was_alive := r.is_alive
            let (ok, r') := r.use_energy energy_cost
            if !ok then gs
            else
              let gs1 := gs.setRobot i r'
              if was_alive && !r'.is_alive then gs1.handle_robot_death i
              else gs1.execute_single_instruction i instruction (instruction_str.length + 1)

/-- _execute_robot_instructions: sequential pass over the captured living
roster indices. -/
def GameState.execute_robot_instructions (gs : GameState) : List Nat → GameState
  | [] => gs
  | i :: rest => (gs.dispatchOne i).execute_robot_instructions rest

/-- The invisibility tick loop of execute_turn. -/
def GameState.tickInvisibility (gs : GameState) : List Nat → GameState
  | [] => gs
  | i :: rest => (gs.modifyRobot i Robot.update_invisibility).tickInvisibility rest

/-- The counter-advancement loop of execute_turn: advance every captured
living robot that can still execute. -/
def GameState.advanceCounters (gs : GameState) : List Nat → GameState
  | [] => gs
  | i :: rest =>
    let gs' :=
      if (gs.getRobot i).can_execute then gs.modifyRobot i Robot.advance_program_counter
      else gs
    gs'.advanceCounters rest

/-- Python max with a key over a nonempty list: first element of maximal
key, scanning left to right and replacing only on a strict increase. -/
def pyMaxBy {α : Type} (key : α → Int) : α → List α → α
  | best, [] => best
  | best, a :: rest => pyMaxBy key (if key a > key best then a else best) rest

/-- _determine_winner: no survivors yield no winner, a unique survivor wins,
multiple survivors resolve to the first of maximal energy; the phase always
moves to FINISHED. -/
def GameState.determine_winner (gs : GameState) : GameState :=
  let living := gs.get_living_robots
  let w : Option Int :=
    match living with
    | [] => none
    | [r] => some r.player_id
    | r :: rest => some ((pyMaxBy (fun rr => rr.energy) r rest).player_id)
  { gs with winner_id := w, phase := .finished }

/-- execute_turn: termination pre-check, invisibility tick, instruction
pass, counter advancement, turn increment. Returns the Python boolean
(continue?) with the final state. -/
def GameState.execute_turn (gs : GameState) : Bool × GameState :=
  if gs.phase ≠ .battle then (false, gs)
  else
    let living := gs.livingIdx
    if living.length ≤ 1 then (false, gs.determine_winner)
    else if gs.current_turn ≥ gs.max_turns then (false, gs.determine_winner)
    else
      let gs1 := gs.tickInvisibility living
      let gs2 := gs1.execute_robot_instructions living
      let gs3 := gs2.advanceCounters living
      (true, { gs3 with current_turn := gs3.current_turn + 1 })

/-- Iterated battle turns. -/
def GameState.runTurns (gs : GameState) : Nat → GameState
  | 0 => gs
  | n + 1 => ((gs.execute_turn).2).runTurns n

/-! ## General lemmas about the dict embedding -/

section AssocLemmas

variable {κ α : Type} [DecidableEq κ]

theorem alGet_set_self (k : κ) (v : α) (l : List (κ × α)) :
    alGet k (alSet k v l) = some v := by
  induction l with
  | nil => simp [alSet, alGet]
  | cons p rest ih =>
    obtain ⟨k', v'⟩ := p
    by_cases h : k' = k <;> simp [alSet, alGet, h, ih]

theorem alGet_set_ne (k k' : κ) (v : α) (l : List (κ × α)) (h : k' ≠ k) :
    alGet k' (alSet k v l) = alGet k' l := by
  induction l with
  | nil =>
    simp only [alSet, alGet]
    rw [if_neg (fun hh : k = k' => h hh.symm)]
  | cons p rest ih =>
    obtain ⟨k₀, v₀⟩ := p
    by_cases h0 : k₀ = k
    · subst h0
      simp only [alSet, if_pos rfl, alGet]
      rw [if_neg (fun hh : k₀ = k' => h hh.symm),
        if_neg (fun hh : k₀ = k' => h hh.symm)]
    · simp only [alSet, if_neg h0, alGet]
      by_cases h1 : k₀ = k' <;> simp [h1, ih]

theorem alGet_del_ne (k k' : κ) (l : List (κ × α)) (h : k' ≠ k) :
    alGet k' (alDel k l) = alGet k' l := by
  induction l with
  | nil => rfl
  | cons p rest ih =>
    obtain ⟨k₀, v₀⟩ := p
    by_cases h0 : k₀ = k
    · subst h0
      have h' : ¬ k₀ = k' := fun hh => h hh.symm
      simp [alDel, alGet, h']
    · simp only [alDel, if_neg h0, alGet]
      by_cases h1 : k₀ = k' <;> simp [h1, ih]

theorem alGet_eq_none_of_not_mem (k : κ) (l : List (κ × α))
    (h : k ∉ l.map Prod.fst) : alGet k l = none := by
  induction l with
  | nil => rfl
  | cons p rest ih =>
    obtain ⟨k₀, v₀⟩ := p
    simp only [List.map_cons, List.mem_cons] at h
    push_neg at h
    have hne : ¬ k₀ = k := fun hh => h.1 hh.symm
    simp [alGet, hne, ih h.2]

theorem alGet_del_self (k : κ) (l : List (κ × α))
    (h : (l.map Prod.fst).Nodup) : alGet k (alDel k l) = none := by
  induction l with
  | nil => rfl
  | cons p rest ih =>
    obtain ⟨k₀, v₀⟩ := p
    rw [List.map_cons, List.nodup_cons] at h
    by_cases h0 : k₀ = k
    · subst h0
      simp only [alDel, if_pos rfl]
      exact alGet_eq_none_of_not_mem _ _ h.1
    · simp only [alDel, if_neg h0, alGet, if_neg h0]
      exact ih h.2

theorem alSet_cons_eq (k : κ) (v v₀ : α) (rest : List (κ × α)) :
    alSet k v ((k, v₀) :: rest) = (k, v) :: rest := by
  simp [alSet]

theorem alSet_cons_ne (k k₀ : κ) (v : α) (v₀ : α) (rest : List (κ × α))
    (h0 : k₀ ≠ k) : alSet k v ((k₀, v₀) :: rest) = (k₀, v₀) :: alSet k v rest := by
  simp [alSet, h0]

theorem alDel_cons_eq (k : κ) (v₀ : α) (rest : List (κ × α)) :
    alDel k ((k, v₀) :: rest) = rest := by
  simp [alDel]

theorem alDel_cons_ne (k k₀ : κ) (v₀ : α) (rest : List (κ × α))
    (h0 : k₀ ≠ k) : alDel k ((k₀, v₀) :: rest) = (k₀, v₀) :: alDel k rest := by
  simp [alDel, h0]

theorem alSet_keys_mem (k : κ) (v : α) (l : List (κ × α)) (x : κ)
    (hx : x ∈ (alSet k v l).map Prod.fst) : x ∈ l.map Prod.fst ∨ x = k := by
  induction l with
  | nil =>
    right
    simpa [alSet] using hx
  | cons p rest ih =>
    obtain ⟨k₀, v₀⟩ := p
    by_cases h0 : k₀ = k
    · subst h0
      rw [alSet_cons_eq, List.map_cons] at hx
      rcases List.mem_cons.mp hx with hx | hx
      · exact Or.inr hx
      · exact Or.inl (by rw [List.map_cons]; exact List.mem_cons.mpr (Or.inr hx))
    · rw [alSet_cons_ne k k₀ v v₀ rest h0, List.map_cons] at hx
      rcases List.mem_cons.mp hx with hx | hx
      · exact Or.inl (by rw [List.map_cons]; exact List.mem_cons.mpr (Or.inl hx))
      · rcases ih hx with hh | hh
        · exact Or.inl (by rw [List.map_cons]; exact List.mem_cons.mpr (Or.inr hh))
        · exact Or.inr hh

theorem alDel_keys_mem (k : κ) (l : List (κ × α)) (x : κ)
    (hx : x ∈ (alDel k l).map Prod.fst) : x ∈ l.map Prod.fst := by
  induction l with
  | nil => simp [alDel] at hx
  | cons p rest ih =>
    obtain ⟨k₀, v₀⟩ := p
    by_cases h0 : k₀ = k
    · subst h0
      rw [alDel_cons_eq] at hx
      rw [List.map_cons]
      exact List.mem_cons.mpr (Or.inr hx)
    · rw [alDel_cons_ne k k₀ v₀ rest h0, List.map_cons] at hx
      rw [List.map_cons]
      rcases List.mem_cons.mp hx with hx | hx
      · exact List.mem_cons.mpr (Or.inl hx)
      · exact List.mem_cons.mpr (Or.inr (ih hx))

theorem alSet_keys_nodup (k : κ) (v : α) (l : List (κ × α))
    (h : (l.map Prod.fst).Nodup) : ((alSet k v l).map Prod.fst).Nodup := by
  induction l with
  | nil => simp [alSet]
  | cons p rest ih =>
    obtain ⟨k₀, v₀⟩ := p
    rw [List.map_cons, List.nodup_cons] at h
    by_cases h0 : k₀ = k
    · subst h0
      rw [alSet_cons_eq, List.map_cons, List.nodup_cons]
      exact ⟨h.1, h.2⟩
    · rw [alSet_cons_ne k k₀ v v₀ rest h0, List.map_cons, List.nodup_cons]
      refine ⟨?_, ih h.2⟩
      intro hmem
      rcases alSet_keys_mem k v rest k₀ hmem with hh | hh
      · exact h.1 hh
      · exact h0 hh

theorem alDel_keys_nodup (k : κ) (l : List (κ × α))
    (h : (l.map Prod.fst).Nodup) : ((alDel k l).map Prod.fst).Nodup := by
  induction l with
  | nil => simp [alDel]
  | cons p rest ih =>
    obtain ⟨k₀, v₀⟩ := p
    rw [List.map_cons, List.nodup_cons] at h
    by_cases h0 : k₀ = k
    · subst h0
      rw [alDel_cons_eq]
      exact h.2
    · rw [alDel_cons_ne k k₀ v₀ rest h0, List.map_cons, List.nodup_cons]
      exact ⟨fun hmem => h.1 (alDel_keys_mem k rest k₀ hmem), ih h.2⟩

end AssocLemmas

/-! ## Claim C1 -/

/-- Claim C1: the claim states that every damage or cost application leaves
energy at least 0 (floored at zero). The source Robot.take_damage applies no
floor: a robot with energy 50 taking 100 damage is left at energy -50, in
direct contradiction with the claim and with the repository test
test_negative_energy_fix.py, which asserts energy 0 for this very input.
The dead flip itself does fire. -/
theorem C1_take_damage_no_zero_floor :
    (((Robot.new 1 5 5 50).take_damage 100).energy = -50) ∧
    (((Robot.new 1 5 5 50).take_damage 100).energy < 0) ∧
    (((Robot.new 1 5 5 50).take_damage 100).status = RobotStatus.dead) := by
  decide

/-! ## Claim C3 -/

/-- Claim C3 counterexample: parse_instruction accepts a ProximityTest whose
sub-strings are not parseable instructions, and one whose sub-string is
itself a ProximityTest, while the claim requires both to be rejected. -/
theorem C3_unvalidated_branches_parse :
    (InstructionSet.parse_instruction "PT(XYZ,ABC)".toList =
      some { type := .PT, direction := none,
             parameter := some ("XYZ".toList, "ABC".toList) }) ∧
    (InstructionSet.parse_instruction "XYZ".toList = none) ∧
    (InstructionSet.parse_instruction "PT(PT(IN,MI),RM)".toList =
      some { type := .PT, direction := none,
             parameter := some ("PT(IN,MI)".toList, "RM".toList) }) := by
  decide

section ParserLemmas

theorem pySplitAux_ne_nil (c : Char) (s acc : Str) : pySplitAux c s acc ≠ [] := by
  induction s generalizing acc with
  | nil => simp [pySplitAux]
  | cons x rest ih =>
    by_cases h : x = c <;> simp [pySplitAux, h, ih]

theorem pySplit_pt_prefix (s : Str) :
    pySplit '(' ('P' :: 'T' :: '(' :: s) = ['P', 'T'] :: pySplit '(' s := rfl

theorem pyFind_pt_prefix (s : Str) : pyFind '(' ('P' :: 'T' :: '(' :: s) = 2 := rfl

theorem pyRFindAux_append_last (c : Char) (s : Str) :
    ∀ (i best : Int), pyRFindAux c (s ++ [c]) i best = i + s.length := by
  induction s with
  | nil => intro i best; simp [pyRFindAux]
  | cons x rest ih =>
    intro i best
    show pyRFindAux c (rest ++ [c]) (i + 1) (if x = c then i else best) =
      i + ((x :: rest).length : Int)
    rw [ih]
    simp only [List.length_cons]
    push_cast
    ring

theorem take_len_append {α : Type} (l₁ l₂ : List α) : (l₁ ++ l₂).take l₁.length = l₁ := by
  induction l₁ with
  | nil => simp
  | cons a t ih => simp [ih]

theorem drop_len_append {α : Type} (l₁ l₂ : List α) : (l₁ ++ l₂).drop l₁.length = l₂ := by
  induction l₁ with
  | nil => simp
  | cons a t ih => simp [ih]

/-- The parenthesised content extracted by the PT arm of parse_instruction
on a well-bracketed PT string is exactly the text between the outer
parentheses. -/
theorem pySlice_pt_content (s : Str) :
    pySlice ('P' :: 'T' :: '(' :: (s ++ [')'])) 3 (3 + (s.length : Int)) = s := by
  have hlen : ('P' :: 'T' :: '(' :: (s ++ [')'])).length = s.length + 4 := by
    simp
  have h3 : pyIdxNorm ('P' :: 'T' :: '(' :: (s ++ [')'])).length 3 = 3 := by
    simp only [pyIdxNorm, hlen]
    norm_num
    omega
  have hb : pyIdxNorm ('P' :: 'T' :: '(' :: (s ++ [')'])).length (3 + (s.length : Int)) =
      3 + s.length := by
    simp only [pyIdxNorm, hlen]
    have : ¬ (3 + (s.length : Int) < 0) := by omega
    rw [if_neg this]
    have : min (3 + (s.length : Int)) ((s.length + 4 : Nat) : Int) = 3 + (s.length : Int) := by
      push_cast
      omega
    rw [this]
    omega
  rw [pySlice, h3, hb]
  have hfull : ('P' :: 'T' :: '(' :: (s ++ [')'])) = (('P' :: 'T' :: '(' :: s) ++ [')']) := by
    simp
  have hplen : ('P' :: 'T' :: '(' :: s).length = 3 + s.length := by
    simp
    omega
  rw [hfull, show 3 + s.length = ('P' :: 'T' :: '(' :: s).length from hplen.symm,
    take_len_append]
  have : ('P' :: 'T' :: '(' :: s) = ['P', 'T', '('] ++ s := rfl
  rw [this, show (3 : Nat) = (['P', 'T', '('] : Str).length from rfl, drop_len_append]

/-- Claim C3: on every string of the shape PT(content), parse_instruction
succeeds exactly when the depth-aware top-level-comma split of the content
yields exactly two non-empty trimmed sub-strings, which are then stored
verbatim with no further validation; in every other case it yields none.
This is weaker than the claim, which in addition requires each sub-string
to parse as a valid non-ProximityTest instruction: the sub-strings are not
inspected at all at parse time (see the counterexample theorem). -/
theorem C3_pt_parse_checks_split_shape_only (s : Str) :
    InstructionSet.parse_instruction ("PT(".toList ++ s ++ ")".toList) =
      (match InstructionSet.ptSplit s with
       | [a, b] =>
         if a ≠ [] ∧ b ≠ [] then
           some { type := .PT, direction := none, parameter := some (a, b) }
         else none
       | _ => none) := by
  have hshape : ("PT(".toList ++ s ++ ")".toList) = 'P' :: 'T' :: '(' :: (s ++ [')']) := by
    simp
  rw [hshape]
  have hsplit := pySplit_pt_prefix (s ++ [')'])
  have hrfind : pyRFind ')' ('P' :: 'T' :: '(' :: (s ++ [')'])) = 3 + (s.length : Int) := by
    have : ('P' :: 'T' :: '(' :: (s ++ [')'])) = (('P' :: 'T' :: '(' :: s) ++ [')']) := by simp
    rw [pyRFind, this, pyRFindAux_append_last]
    simp
    omega
  have hfind : pyFind '(' ('P' :: 'T' :: '(' :: (s ++ [')'])) = 2 := rfl
  have hname : pyUpper (pyStrip ((['P', 'T'] :: pySplit '(' (s ++ [')'])).headD [])) =
      ['P', 'T'] := rfl
  have htype : instructionTypeOfName ['P', 'T'] = some .PT := rfl
  have hlen : (['P', 'T'] :: pySplit '(' (s ++ [')'])).length > 1 := by
    have := pySplitAux_ne_nil '(' (s ++ [')']) []
    have hpos : 0 < (pySplit '(' (s ++ [')'])).length :=
      List.length_pos.mpr this
    simp only [List.length_cons]
    omega
  simp only [InstructionSet.parse_instruction, hsplit, hname, htype, if_pos hlen]
  rw [if_true, hfind, hrfind]
  have h23 : (2 : Int) + 1 = 3 := by norm_num
  rw [h23, pySlice_pt_content]
  rcases hsp : InstructionSet.ptSplit s with _ | ⟨a, _ | ⟨b, _ | ⟨c, t⟩⟩⟩ <;>
    simp [List.all_cons, and_assoc]

end ParserLemmas

/-! ## Claim C7 -/

/-- Claim C7: proximity detection succeeds exactly when some living robot of
a different side, whose status is neither Invisible nor Frozen, lies within
the configured Manhattan radius with line of sight from the acting robot.
In particular an Invisible or Frozen robot is never matched at any
distance, including distance 0, since the status disjuncts are required of
every witness. -/
theorem C7_proximity_characterization (gs : GameState) (i : Nat) :
    gs.check_proximity i = true ↔
      ∃ j ∈ gs.livingIdx,
        (gs.getRobot j).player_id ≠ (gs.getRobot i).player_id ∧
        (gs.getRobot j).status ≠ .invisible ∧
        (gs.getRobot j).status ≠ .frozen ∧
        manhattan (gs.getRobot i).x (gs.getRobot i).y
            (gs.getRobot j).x (gs.getRobot j).y ≤ gs.proximity_distance ∧
        gs.has_line_of_sight (gs.getRobot i).x (gs.getRobot i).y
            (gs.getRobot j).x (gs.getRobot j).y = true := by
  unfold GameState.check_proximity
  rw [List.any_eq_true]
  constructor
  · rintro ⟨j, hj, hp⟩
    refine ⟨j, hj, ?_⟩
    simp only [Bool.and_eq_true, Bool.not_eq_true', decide_eq_false_iff_not,
      decide_eq_true_eq, not_or] at hp
    exact ⟨hp.1.1.1, hp.1.1.2.1, hp.1.1.2.2, hp.1.2, hp.2⟩
  · rintro ⟨j, hj, h1, h2, h3, h4, h5⟩
    refine ⟨j, hj, ?_⟩
    simp only [Bool.and_eq_true, Bool.not_eq_true', decide_eq_false_iff_not,
      decide_eq_true_eq, not_or]
    exact ⟨⟨⟨h1, h2, h3⟩, h4⟩, h5⟩

/-! ## Claim C4 -/

/-- Claim C4: in battle dispatch, a living non-frozen robot whose current
instruction parses is routed away from the programmed instruction whenever
its energy is below the instruction cost or at or below the fixed emergency
threshold: the dispatch step equals the emergency-routine path (the routine
itself freezes the robot when no emergency action is configured, matching
the specification of the Emergency Routine). The threshold of every newly
created robot is the maximum tabled cost plus 10, namely 210. -/
theorem C4_low_energy_routes_to_emergency (gs : GameState) (i : Nat)
    (s : Str) (instr : Instruction)
    (h_alive : (gs.getRobot i).is_alive = true)
    (h_exec : (gs.getRobot i).can_execute = true)
    (h_cur : (gs.getRobot i).get_current_instruction = some s)
    (h_ne : s ≠ [])
    (h_parse : InstructionSet.parse_instruction s = some instr)
    (h_low : (gs.getRobot i).energy < InstructionSet.energyCost instr.type ∨
             (gs.getRobot i).energy ≤ (gs.getRobot i).emergency_energy_threshold) :
    (gs.dispatchOne i =
      if (gs.getRobot i).emergency_action.isSome then gs.execute_emergency_routine i
      else gs.modifyRobot i (fun rr => { rr with status := .frozen })) ∧
    (∀ pid x y e, (Robot.new pid x y e).emergency_energy_threshold = 210) := by
  constructor
  · simp only [GameState.dispatchOne, h_alive, h_exec, h_cur, h_parse,
      Bool.not_true, Bool.false_eq_true, if_false, if_neg h_ne, if_pos h_low]
  · intro pid x y e
    rfl

/-- Concrete state for scenario C of the specification: one robot with
energy exactly 210, current instruction MI of cost 200, and a configured
emergency action DM(N) of cost 5. -/
def c4State : GameState :=
  { arena := { width := 10, height := 10, grid := [], mines := [],
               robotsAt := [((5, 5), 0)] }
    robots := [{ Robot.new 1 5 5 210 with
                 program := ["MI".toList]
                 emergency_action := some "DM(N)".toList }]
    phase := .battle
    current_turn := 0
    max_turns := 1000
    proximity_distance := 5
    winner_id := none
    rng := [] }

/-- Witness for claim C4 at scenario C: the robot with energy exactly 210
and a 200-cost programmed instruction is dispatched to its emergency
action: it ends at energy 205 having moved north, and no mine is placed. -/
theorem C4_low_energy_routes_to_emergency_witness :
    (c4State.getRobot 0).energy = 210 ∧
    InstructionSet.energyCost InstructionType.MI = 200 ∧
    c4State.dispatchOne 0 = c4State.execute_emergency_routine 0 ∧
    ((c4State.dispatchOne 0).getRobot 0).energy = 205 ∧
    ((c4State.dispatchOne 0).getRobot 0).y = 4 ∧
    (c4State.dispatchOne 0).arena.mines = [] := by
  refine ⟨by decide, by decide, ?_, by decide, by decide, by decide⟩
  have h := (C4_low_energy_routes_to_emergency c4State 0 "MI".toList
    { type := .MI } (by decide) (by decide) (by decide) (by decide)
    (by decide) (by decide)).1
  rw [h, if_pos (by decide : (c4State.getRobot 0).emergency_action.isSome = true)]

/-! ## Claim C6 -/

section WinnerLemmas

theorem length_filter_map_succ (q : Nat → Bool) (r : List Nat) :
    (((r.map Nat.succ).filter q)).length = (r.filter (fun i => q (i + 1))).length := by
  induction r with
  | nil => rfl
  | cons i t ih =>
    simp only [List.map_cons, List.filter_cons]
    by_cases h : q (i + 1) = true
    · rw [show Nat.succ i = i + 1 from rfl, if_pos h, if_pos h]
      simp [ih]
    · rw [show Nat.succ i = i + 1 from rfl,
        if_neg h, if_neg h, ih]

/-- The index view and the object view of the living-robot list have the
same length: the embedding of the Python list of aliased robot objects is
index-faithful. -/
theorem livingIdx_length (gs : GameState) :
    gs.livingIdx.length = gs.get_living_robots.length := by
  show ((List.range gs.robots.length).filter
      (fun i => (gs.robots.getD i defaultRobot).is_alive)).length =
    (gs.robots.filter (·.is_alive)).length
  generalize gs.robots = l
  induction l with
  | nil => rfl
  | cons a t ih =>
    rw [List.length_cons, List.range_succ_eq_map, List.filter_cons, List.filter_cons]
    by_cases h : a.is_alive = true
    · rw [if_pos (by simpa using h), if_pos h]
      simp only [List.length_cons]
      rw [length_filter_map_succ]
      exact congrArg Nat.succ ih
    · rw [if_neg (by simpa using h), if_neg h]
      rw [length_filter_map_succ]
      exact ih

theorem pyMaxBy_mem {α : Type} (key : α → Int) :
    ∀ (l : List α) (b : α), pyMaxBy key b l ∈ b :: l := by
  intro l
  induction l with
  | nil =>
    intro b
    simp [pyMaxBy]
  | cons a t ih =>
    intro b
    simp only [pyMaxBy]
    by_cases h : key a > key b
    · rw [if_pos h]
      exact List.mem_cons.mpr (Or.inr (ih a))
    · rw [if_neg h]
      rcases List.mem_cons.mp (ih b) with hh | hh
      · exact List.mem_cons.mpr (Or.inl hh)
      · exact List.mem_cons.mpr (Or.inr (List.mem_cons.mpr (Or.inr hh)))

theorem pyMaxBy_ge {α : Type} (key : α → Int) :
    ∀ (l : List α) (b : α), ∀ a ∈ b :: l, key a ≤ key (pyMaxBy key b l) := by
  intro l
  induction l with
  | nil =>
    intro b a ha
    rw [List.mem_singleton.mp ha]
    simp [pyMaxBy]
  | cons c t ih =>
    intro b a ha
    simp only [pyMaxBy]
    have hbm : key b ≤ key (if key c > key b then c else b) := by
      by_cases h : key c > key b
      · rw [if_pos h]
        exact le_of_lt h
      · rw [if_neg h]
    have hcm : key c ≤ key (if key c > key b then c else b) := by
      by_cases h : key c > key b
      · rw [if_pos h]
      · rw [if_neg h]
        exact le_of_not_lt h
    have hm := ih (if key c > key b then c else b)
    rcases List.mem_cons.mp ha with hab | ha'
    · rw [hab]
      exact le_trans hbm (hm _ (List.mem_cons_self _ t))
    · rcases List.mem_cons.mp ha' with hac | hat
      · rw [hac]
        exact le_trans hcm (hm _ (List.mem_cons_self _ t))
      · exact hm a (List.mem_cons.mpr (Or.inr hat))

theorem pyMaxBy_of_strict_max {α : Type} (key : α → Int) (x : α) (rest : List α)
    (r : α) (hr : r ∈ x :: rest)
    (hmax : ∀ o ∈ x :: rest, o ≠ r → key o < key r) :
    pyMaxBy key x rest = r := by
  by_contra hne
  have hlt := hmax _ (pyMaxBy_mem key rest x) hne
  have hge := pyMaxBy_ge key rest x r hr
  omega

end WinnerLemmas

/-- Claim C6: on the termination pre-check of a battle turn, the turn does
not continue and the state is settled by winner determination, which always
moves the phase to FINISHED; with zero living robots no winner is set, with
exactly one living robot that robot wins by side, and with several living
robots (the turn-limit path) a robot with strictly highest energy among the
living wins by side. -/
theorem C6_winner_determination (gs : GameState)
    (h_phase : gs.phase = .battle)
    (h_pre : gs.get_living_robots.length ≤ 1 ∨ gs.current_turn ≥ gs.max_turns) :
    gs.execute_turn = (false, gs.determine_winner) ∧
    gs.determine_winner.phase = .finished ∧
    (gs.get_living_robots = [] → gs.determine_winner.winner_id = none) ∧
    (∀ r, gs.get_living_robots = [r] →
       gs.determine_winner.winner_id = some r.player_id) ∧
    (∀ r, r ∈ gs.get_living_robots →
       (∀ o ∈ gs.get_living_robots, o ≠ r → o.energy < r.energy) →
       gs.determine_winner.winner_id = some r.player_id) := by
  refine ⟨?_, by simp [GameState.determine_winner], ?_, ?_, ?_⟩
  · have hnp : ¬ gs.phase ≠ GamePhase.battle := by simp [h_phase]
    simp only [GameState.execute_turn, if_neg hnp]
    rcases h_pre with hl | ht
    · rw [if_pos (by rw [livingIdx_length]; exact hl)]
    · by_cases hl1 : gs.livingIdx.length ≤ 1
      · rw [if_pos hl1]
      · rw [if_neg hl1, if_pos ht]
  · intro h
    simp [GameState.determine_winner, h]
  · intro r h
    simp [GameState.determine_winner, h]
  · intro r hr hmax
    rcases hliving : gs.get_living_robots with _ | ⟨x, _ | ⟨y, t⟩⟩
    · rw [hliving] at hr
      simp at hr
    · rw [hliving] at hr
      have hrx : r = x := List.mem_singleton.mp hr
      subst hrx
      simp [GameState.determine_winner, hliving]
    · rw [hliving] at hr hmax
      have hm := pyMaxBy_of_strict_max (fun rr => rr.energy) x (y :: t) r hr
        (fun o ho hne => hmax o ho hne)
      simp [GameState.determine_winner, hliving, hm]

/-- Concrete state for scenario D: two living robots of different sides at
the turn limit, the side-1 robot at strictly higher energy. -/
def c6State : GameState :=
  { arena := { width := 10, height := 10, grid := [], mines := [],
               robotsAt := [((1, 1), 0), ((8, 8), 1)] }
    robots := [Robot.new 1 1 1 500, Robot.new 2 8 8 300]
    phase := .battle
    current_turn := 5
    max_turns := 5
    proximity_distance := 5
    winner_id := none
    rng := [] }

/-- Witness for claim C6 at scenario D: the turn does not continue, the
battle finishes, and side 1 (strictly higher energy) wins. -/
theorem C6_winner_determination_witness :
    c6State.execute_turn = (false, c6State.determine_winner) ∧
    c6State.determine_winner.phase = .finished ∧
    c6State.determine_winner.winner_id = some 1 := by
  have h := C6_winner_determination c6State (by decide) (Or.inr (by decide))
  exact ⟨h.1, h.2.1, h.2.2.2.2 (Robot.new 1 1 1 500) (by decide) (by decide)⟩

/-! ## Roster access lemmas -/

section RosterLemmas

theorem getD_get? {α : Type} (l : List α) (n : Nat) (d : α) :
    l.getD n d = (l.get? n).getD d := by
  induction l generalizing n with
  | nil => cases n <;> rfl
  | cons a t ih => cases n with
    | zero => rfl
    | succ m => simp only [List.getD_cons_succ, List.get?_cons_succ]; exact ih m

theorem GameState.setRobot_length (gs : GameState) (i : Nat) (r : Robot) :
    (gs.setRobot i r).robots.length = gs.robots.length := by
  simp [GameState.setRobot]

theorem GameState.getRobot_setRobot_self (gs : GameState) (i : Nat) (r : Robot)
    (h : i < gs.robots.length) : (gs.setRobot i r).getRobot i = r := by
  show (gs.robots.set i r).getD i defaultRobot = r
  rw [getD_get?, List.get?_set_eq_of_lt r h]
  rfl

theorem GameState.getRobot_setRobot_ne (gs : GameState) (i j : Nat) (r : Robot)
    (h : j ≠ i) : (gs.setRobot i r).getRobot j = gs.getRobot j := by
  show (gs.robots.set i r).getD j defaultRobot = gs.robots.getD j defaultRobot
  rw [getD_get?, getD_get?, List.get?_set_ne r _ (fun hh => h hh.symm)]

theorem GameState.get?_setRobot_ne (gs : GameState) (i j : Nat) (r : Robot)
    (h : j ≠ i) : (gs.setRobot i r).robots.get? j = gs.robots.get? j := by
  show (gs.robots.set i r).get? j = gs.robots.get? j
  exact List.get?_set_ne r _ (fun hh => h hh.symm)

theorem Arena.is_valid_of_passable (a : Arena) (x y : Int)
    (h : a.is_passable x y = true) : a.is_valid_position x y = true := by
  by_cases hv : a.is_valid_position x y = true
  · exact hv
  · exfalso
    rw [Arena.is_passable,
      if_pos (by simp [hv] : (!a.is_valid_position x y) = true)] at h
    exact Bool.false_ne_true h

theorem move_dest_ne (x y : Int) (d : Direction) :
    ((x + d.offset.1, y + d.offset.2) : Int × Int) ≠ (x, y) := by
  cases d <;> simp [Direction.offset, Prod.ext_iff]

end RosterLemmas

/-! ## Claim C5 -/

theorem Arena.is_valid_update (a : Arena) (m : List ((Int × Int) × (Int × Int)))
    (ra : List ((Int × Int) × Nat)) (x y : Int) :
    ({ a with mines := m, robotsAt := ra } : Arena).is_valid_position x y =
      a.is_valid_position x y := rfl

theorem GameState.handle_robot_death_robots (gs : GameState) (i : Nat) :
    (gs.handle_robot_death i).robots = gs.robots := by
  simp only [GameState.handle_robot_death, Arena.place_dead_robot]

theorem GameState.handle_robot_death_mines (gs : GameState) (i : Nat) :
    (gs.handle_robot_death i).arena.mines = gs.arena.mines := by
  simp only [GameState.handle_robot_death, Arena.place_dead_robot]
  split <;> (try split) <;> rfl

/-- Death handling at an occupied, in-bounds death cell: the cell is removed
from occupancy and a wreck is written into the grid there. -/
theorem GameState.handle_robot_death_dest (gs : GameState) (i : Nat)
    (hocc : (alGet ((gs.getRobot i).x, (gs.getRobot i).y) gs.arena.robotsAt).isSome =
      true)
    (hval : gs.arena.is_valid_position (gs.getRobot i).x (gs.getRobot i).y = true) :
    (gs.handle_robot_death i).arena.robotsAt =
      alDel ((gs.getRobot i).x, (gs.getRobot i).y) gs.arena.robotsAt ∧
    (gs.handle_robot_death i).arena.grid =
      alSet ((gs.getRobot i).x, (gs.getRobot i).y) .dead_robot gs.arena.grid := by
  simp only [GameState.handle_robot_death, if_pos hocc, Arena.place_dead_robot]
  constructor
  · split
    · rfl
    · next hf => exact absurd hval hf
  · split
    · rfl
    · next hf => exact absurd hval hf

/-- Claim C5: movement onto an in-bounds, passable, unoccupied cell holding
a hazard. If the hazard is owned by the mover (owner decoded as mine_id
floor-div 10), the move is rejected: roster, occupancy and grid are
unchanged, and the hazard (re-encoded from the mover side, hence unchanged
for the well-formed owner*10 encoding) remains on the cell. If the hazard
is owned by another side, the move completes onto the cell, the hazard is
removed, and its damage is applied to the mover in the same resolution
step: on survival the mover occupies the cell with its status intact, on
death the mover is removed from occupancy and a wreck is written at the
destination cell. -/
theorem C5_move_onto_hazard (gs : GameState) (i : Nat) (d : Direction) (mid dmg : Int)
    (h_i : i < gs.robots.length)
    (h_pass : gs.arena.is_passable ((gs.getRobot i).x + d.offset.1)
        ((gs.getRobot i).y + d.offset.2) = true)
    (h_unocc : alGet ((gs.getRobot i).x + d.offset.1, (gs.getRobot i).y + d.offset.2)
        gs.arena.robotsAt = none)
    (h_mine : alGet ((gs.getRobot i).x + d.offset.1, (gs.getRobot i).y + d.offset.2)
        gs.arena.mines = some (mid, dmg))
    (h_mnd : (gs.arena.mines.map Prod.fst).Nodup)
    (h_ond : (gs.arena.robotsAt.map Prod.fst).Nodup) :
    (mid.fdiv 10 = (gs.getRobot i).player_id →
        (gs.move_robot i (some d)).robots = gs.robots ∧
        (gs.move_robot i (some d)).arena.robotsAt = gs.arena.robotsAt ∧
        (gs.move_robot i (some d)).arena.grid = gs.arena.grid ∧
        alGet ((gs.getRobot i).x + d.offset.1, (gs.getRobot i).y + d.offset.2)
            (gs.move_robot i (some d)).arena.mines =
          some ((gs.getRobot i).player_id * 10, dmg) ∧
        (mid = (gs.getRobot i).player_id * 10 →
           ∀ p, alGet p (gs.move_robot i (some d)).arena.mines =
             alGet p gs.arena.mines)) ∧
    (mid.fdiv 10 ≠ (gs.getRobot i).player_id →
        ((gs.move_robot i (some d)).getRobot i).x = (gs.getRobot i).x + d.offset.1 ∧
        ((gs.move_robot i (some d)).getRobot i).y = (gs.getRobot i).y + d.offset.2 ∧
        ((gs.move_robot i (some d)).getRobot i).energy = (gs.getRobot i).energy - dmg ∧
        alGet ((gs.getRobot i).x + d.offset.1, (gs.getRobot i).y + d.offset.2)
            (gs.move_robot i (some d)).arena.mines = none ∧
        (∀ j, j ≠ i → (gs.move_robot i (some d)).robots.get? j = gs.robots.get? j) ∧
        ((gs.getRobot i).energy - dmg > 0 →
           ((gs.move_robot i (some d)).getRobot i).status = (gs.getRobot i).status ∧
           alGet ((gs.getRobot i).x + d.offset.1, (gs.getRobot i).y + d.offset.2)
               (gs.move_robot i (some d)).arena.robotsAt = some i ∧
           alGet ((gs.getRobot i).x, (gs.getRobot i).y)
               (gs.move_robot i (some d)).arena.robotsAt = none) ∧
        ((gs.getRobot i).energy - dmg ≤ 0 → (gs.getRobot i).status ≠ .dead →
           ((gs.move_robot i (some d)).getRobot i).status = .dead ∧
           (gs.move_robot i (some d)).arena.cellAt
               ((gs.getRobot i).x + d.offset.1) ((gs.getRobot i).y + d.offset.2) =
             .dead_robot ∧
           alGet ((gs.getRobot i).x + d.offset.1, (gs.getRobot i).y + d.offset.2)
               (gs.move_robot i (some d)).arena.robotsAt = none ∧
           alGet ((gs.getRobot i).x, (gs.getRobot i).y)
               (gs.move_robot i (some d)).arena.robotsAt = none)) := by
  have hvalid : gs.arena.is_valid_position ((gs.getRobot i).x + d.offset.1)
      ((gs.getRobot i).y + d.offset.2) = true :=
    Arena.is_valid_of_passable _ _ _ h_pass
  have hmineb : gs.arena.has_mine ((gs.getRobot i).x + d.offset.1)
      ((gs.getRobot i).y + d.offset.2) = true := by
    rw [Arena.has_mine, h_mine]
    rfl
  constructor
  · intro hown
    simp only [GameState.move_robot, h_pass, Bool.not_true, Bool.false_eq_true,
      if_false, h_unocc, Option.isSome_none, hmineb, if_true,
      Arena.trigger_mine, h_mine, if_pos hown]
    have hv2 : ({ gs.arena with
        mines := alDel ((gs.getRobot i).x + d.offset.1,
          (gs.getRobot i).y + d.offset.2) gs.arena.mines } : Arena).is_valid_position
        ((gs.getRobot i).x + d.offset.1) ((gs.getRobot i).y + d.offset.2) = true :=
      hvalid
    simp only [Arena.place_mine, hv2, if_true]
    refine ⟨trivial, trivial, trivial, alGet_set_self _ _ _, ?_⟩
    intro hmid p
    by_cases hp : p = ((gs.getRobot i).x + d.offset.1, (gs.getRobot i).y + d.offset.2)
    · subst hp
      rw [alGet_set_self, h_mine, hmid]
    · rw [alGet_set_ne _ _ _ _ hp, alGet_del_ne _ _ _ hp]
  · intro hown
    set nx := (gs.getRobot i).x + d.offset.1 with hnx
    set ny := (gs.getRobot i).y + d.offset.2 with hny
    set r0 := gs.getRobot i with hr0
    set gsA : GameState := { gs with arena := { gs.arena with
        mines := alDel (nx, ny) gs.arena.mines
        robotsAt := alSet (nx, ny) i (alDel (r0.x, r0.y) gs.arena.robotsAt) } }
      with hgsA
    set gs2 : GameState := gsA.modifyRobot i (fun rr => rr.set_position nx ny) with hgs2
    set gs3 : GameState := gs2.modifyRobot i (fun rr => rr.take_damage dmg) with hgs3
    have hred : gs.move_robot i (some d) =
        if (gs2.getRobot i).is_alive && !(gs3.getRobot i).is_alive
        then gs3.handle_robot_death i else gs3 := by
      simp only [GameState.move_robot, h_pass, Bool.not_true, Bool.false_eq_true,
        if_false, h_unocc, Option.isSome_none, hmineb, if_true,
        Arena.trigger_mine, h_mine, if_neg hown]
    have hAget : gsA.getRobot i = r0 := rfl
    have hAlen : gsA.robots.length = gs.robots.length := rfl
    have h2get : gs2.getRobot i = r0.set_position nx ny := by
      rw [hgs2, GameState.modifyRobot, hAget]
      exact GameState.getRobot_setRobot_self gsA i _ (by rw [hAlen]; exact h_i)
    have h2len : gs2.robots.length = gs.robots.length := by
      rw [hgs2, GameState.modifyRobot, GameState.setRobot_length, hAlen]
    have h3get : gs3.getRobot i = (r0.set_position nx ny).take_damage dmg := by
      rw [hgs3, GameState.modifyRobot, h2get]
      exact GameState.getRobot_setRobot_self gs2 i _ (by rw [h2len]; exact h_i)
    have h3arena : gs3.arena = gsA.arena := rfl
    have hget_other : ∀ j, j ≠ i → gs3.robots.get? j = gs.robots.get? j := by
      intro j hj
      rw [hgs3, GameState.modifyRobot, GameState.get?_setRobot_ne _ _ _ _ hj,
        hgs2, GameState.modifyRobot, GameState.get?_setRobot_ne _ _ _ _ hj]
    have hAmines : gsA.arena.mines = alDel (nx, ny) gs.arena.mines := rfl
    have hArat : gsA.arena.robotsAt =
        alSet (nx, ny) i (alDel (r0.x, r0.y) gs.arena.robotsAt) := rfl
    have hAnodup : ((alSet (nx, ny) i (alDel (r0.x, r0.y) gs.arena.robotsAt)).map
        Prod.fst).Nodup :=
      alSet_keys_nodup _ _ _ (alDel_keys_nodup _ _ h_ond)
    have hne_pos : ((nx, ny) : Int × Int) ≠ (r0.x, r0.y) := move_dest_ne r0.x r0.y d
    have hx3 : ((r0.set_position nx ny).take_damage dmg).x = nx := rfl
    have hy3 : ((r0.set_position nx ny).take_damage dmg).y = ny := rfl
    have he3 : ((r0.set_position nx ny).take_damage dmg).energy = r0.energy - dmg := rfl
    have hmine_gone : alGet (nx, ny) gs3.arena.mines = none := by
      rw [h3arena, hAmines]
      exact alGet_del_self _ _ h_mnd
    have hocc_new : alGet (nx, ny) gs3.arena.robotsAt = some i := by
      rw [h3arena, hArat]
      exact alGet_set_self _ _ _
    have hocc_old : alGet (r0.x, r0.y) gs3.arena.robotsAt = none := by
      rw [h3arena, hArat, alGet_set_ne _ _ _ _ (fun hh => hne_pos hh.symm)]
      exact alGet_del_self _ _ h_ond
    by_cases hsurv : r0.energy - dmg > 0
    · have hstat : ((r0.set_position nx ny).take_damage dmg).status = r0.status := by
        simp only [Robot.take_damage, Robot.set_position]
        rw [if_neg (by omega : ¬ (r0.energy - dmg ≤ 0))]
      have hcond : ((gs2.getRobot i).is_alive && !(gs3.getRobot i).is_alive) = false := by
        rw [h2get, h3get, Robot.is_alive, Robot.is_alive]
        show (decide ((r0.set_position nx ny).status ≠ RobotStatus.dead) &&
          !decide (((r0.set_position nx ny).take_damage dmg).status ≠
            RobotStatus.dead)) = false
        rw [hstat]
        exact Bool.and_not_self _
      rw [hred, if_neg (by rw [hcond]; exact Bool.false_ne_true)]
      refine ⟨by rw [h3get, hx3], by rw [h3get, hy3], by rw [h3get, he3],
        hmine_gone, hget_other, ?_, ?_⟩
      · intro _
        exact ⟨by rw [h3get, hstat], hocc_new, hocc_old⟩
      · intro hdie _
        omega
    · have hdie : r0.energy - dmg ≤ 0 := by omega
      have hstat : ((r0.set_position nx ny).take_damage dmg).status = .dead := by
        simp only [Robot.take_damage, Robot.set_position]
        rw [if_pos (by omega : (r0.energy - dmg ≤ 0))]
      have hrob_eq : (gs.move_robot i (some d)).robots = gs3.robots := by
        rw [hred]
        by_cases hc : ((gs2.getRobot i).is_alive && !(gs3.getRobot i).is_alive) = true
        · rw [if_pos hc, GameState.handle_robot_death_robots]
        · rw [if_neg hc]
      have hmines_eq : (gs.move_robot i (some d)).arena.mines = gs3.arena.mines := by
        rw [hred]
        by_cases hc : ((gs2.getRobot i).is_alive && !(gs3.getRobot i).is_alive) = true
        · rw [if_pos hc, GameState.handle_robot_death_mines]
        · rw [if_neg hc]
      have hget_move : (gs.move_robot i (some d)).getRobot i =
          (r0.set_position nx ny).take_damage dmg := by
        rw [GameState.getRobot, hrob_eq, ← GameState.getRobot, h3get]
      refine ⟨by rw [hget_move, hx3], by rw [hget_move, hy3],
        by rw [hget_move, he3], by rw [hmines_eq]; exact hmine_gone,
        ?_, ?_, ?_⟩
      · intro j hj
        rw [hrob_eq]
        exact hget_other j hj
      · intro hs
        exact absurd hs (by omega)
      · intro _ hwas
        have hcondT : ((gs2.getRobot i).is_alive && !(gs3.getRobot i).is_alive) = true := by
          rw [h2get, h3get, Robot.is_alive, Robot.is_alive]
          show (decide ((r0.set_position nx ny).status ≠ RobotStatus.dead) &&
            !decide (((r0.set_position nx ny).take_damage dmg).status ≠
              RobotStatus.dead)) = true
          rw [hstat]
          have hsp : (r0.set_position nx ny).status = r0.status := rfl
          rw [hsp, decide_eq_true (by simp [hwas]), Bool.true_and]
          simp
        have hocc3 : (alGet ((gs3.getRobot i).x, (gs3.getRobot i).y)
            gs3.arena.robotsAt).isSome = true := by
          rw [h3get, hx3, hy3, hocc_new]
          rfl
        have hval3 : gs3.arena.is_valid_position (gs3.getRobot i).x
            (gs3.getRobot i).y = true := by
          rw [h3get, hx3, hy3]
          exact hvalid
        have hdest := GameState.handle_robot_death_dest gs3 i hocc3 hval3
        refine ⟨?_, ?_, ?_, ?_⟩
        · rw [hget_move, hstat]
        · rw [hred, if_pos hcondT, Arena.cellAt, hdest.2, h3get, hx3, hy3,
            alGet_set_self]
          rfl
        · rw [hred, if_pos hcondT, hdest.1, h3get, hx3, hy3, h3arena, hArat]
          exact alGet_del_self _ _ hAnodup
        · rw [hred, if_pos hcondT, hdest.1, h3get, hx3, hy3]
          rw [alGet_del_ne _ _ _ (fun hh => hne_pos hh.symm), h3arena, hArat,
            alGet_set_ne _ _ _ _ (fun hh => hne_pos hh.symm)]
          exact alGet_del_self _ _ h_ond

/-- Concrete state: a side-1 robot at (6,5) facing an enemy-owned mine
(mine_id 20, damage 200) at (5,5) on an empty 10 by 10 arena. -/
def c5State : GameState :=
  { arena := { width := 10, height := 10, grid := [],
               mines := [((5, 5), (20, 200))], robotsAt := [((6, 5), 0)] }
    robots := [Robot.new 1 6 5 1000]
    phase := .battle
    current_turn := 0
    max_turns := 1000
    proximity_distance := 5
    winner_id := none
    rng := [] }

/-- Concrete state: the same robot facing its own mine (mine_id 10) at
(5,5), as in scenario B of the specification. -/
def c5OwnState : GameState :=
  { c5State with arena := { c5State.arena with mines := [((5, 5), (10, 200))] } }

/-- Witness for claim C5: stepping west onto the enemy mine completes the
move to x = 5, costs 200 energy and consumes the mine; stepping onto the
own mine leaves the roster untouched and the mine in place. -/
theorem C5_move_onto_hazard_witness :
    ((c5State.move_robot 0 (some .W)).getRobot 0).x = 5 ∧
    ((c5State.move_robot 0 (some .W)).getRobot 0).energy = 800 ∧
    alGet ((c5State.getRobot 0).x + Direction.W.offset.1,
           (c5State.getRobot 0).y + Direction.W.offset.2)
        (c5State.move_robot 0 (some .W)).arena.mines = none ∧
    (c5OwnState.move_robot 0 (some .W)).robots = c5OwnState.robots ∧
    alGet ((c5OwnState.getRobot 0).x + Direction.W.offset.1,
           (c5OwnState.getRobot 0).y + Direction.W.offset.2)
        (c5OwnState.move_robot 0 (some .W)).arena.mines = some (10, 200) := by
  have h := (C5_move_onto_hazard c5State 0 Direction.W 20 200 (by decide) (by decide)
    (by decide) (by decide) (by decide) (by decide)).2 (by decide)
  have h2 := (C5_move_onto_hazard c5OwnState 0 Direction.W 10 200 (by decide) (by decide)
    (by decide) (by decide) (by decide) (by decide)).1 (by decide)
  refine ⟨by rw [h.1]; decide, by rw [h.2.2.1]; decide, h.2.2.2.1, h2.1, ?_⟩
  rw [h2.2.2.2.1]
  decide

/-! ## Claim C2 -/

/-- Claim C2 counterexample: with shooter (side 1) at (5,5), a same-side
robot at (4,5) and an enemy at (3,5), the row fire scans past the friendly
robot and damages the enemy behind it: the claim that a same-side occupant
stops the shot (no cell beyond it affected) is false. The friendly robot
itself takes no damage. -/
def c2State : GameState :=
  { arena := { width := 10, height := 10, grid := [], mines := [],
               robotsAt := [((5, 5), 0), ((4, 5), 1), ((3, 5), 2)] }
    robots := [Robot.new 1 5 5 1000, Robot.new 1 4 5 1000, Robot.new 2 3 5 1000]
    phase := .battle
    current_turn := 0
    max_turns := 1000
    proximity_distance := 5
    winner_id := none
    rng := [] }

/-- Claim C2 counterexample theorem (see c2State). -/
theorem C2_friendly_does_not_block_fire :
    ((c2State.fire_row 0).getRobot 2).energy = 800 ∧
    ((c2State.fire_row 0).getRobot 1).energy = 1000 := by
  decide

/-- One clear step of the fire scan: when the next cell is in bounds,
passable and not enemy-occupied, the scan moves on with one unit of fuel
spent and the state untouched. -/
theorem fireDir_step_clear (gs : GameState) (pid cx cy dx dy dmg : Int) (f' : Nat)
    (hv : gs.arena.is_valid_position (cx + dx) (cy + dy) = true)
    (hp : gs.arena.is_passable (cx + dx) (cy + dy) = true)
    (hocc : ∀ j', alGet (cx + dx, cy + dy) gs.arena.robotsAt = some j' →
      (gs.getRobot j').player_id = pid) :
    gs.fireDir pid cx cy dx dy dmg (f' + 1) =
      gs.fireDir pid (cx + dx) (cy + dy) dx dy dmg f' := by
  simp only [GameState.fireDir, hv, hp, Bool.not_true, Bool.false_eq_true,
    if_false, if_true]
  rcases halG : alGet (cx + dx, cy + dy) gs.arena.robotsAt with _ | j₂
  · rfl
  · exact if_neg (by simp [hocc j₂ halG])

/-- Blocked-cell stop of the fire scan: a clear path up to distance k - 1
followed by an out-of-bounds or impassable cell at distance k leaves the
whole state untouched. -/
theorem fireDir_stops_blocked (gs : GameState) (pid cx cy dx dy dmg : Int)
    (fuel k : Nat)
    (h_k1 : 1 ≤ k) (h_kf : k ≤ fuel)
    (h_path : ∀ t : Nat, 1 ≤ t → t < k →
       gs.arena.is_valid_position (cx + t * dx) (cy + t * dy) = true ∧
       gs.arena.is_passable (cx + t * dx) (cy + t * dy) = true ∧
       (∀ j', alGet (cx + t * dx, cy + t * dy) gs.arena.robotsAt = some j' →
          (gs.getRobot j').player_id = pid))
    (h_block : gs.arena.is_valid_position (cx + k * dx) (cy + k * dy) = false ∨
       gs.arena.is_passable (cx + k * dx) (cy + k * dy) = false) :
    gs.fireDir pid cx cy dx dy dmg fuel = gs := by
  induction k generalizing cx cy fuel with
  | zero => omega
  | succ k' ih =>
    rcases fuel with _ | f'
    · omega
    by_cases hk0 : k' = 0
    · subst hk0
      have hx1 : cx + ((1 : Nat) : Int) * dx = cx + dx := by push_cast; ring
      have hy1 : cy + ((1 : Nat) : Int) * dy = cy + dy := by push_cast; ring
      rw [hx1, hy1] at h_block
      rcases h_block with hvf | hpf
      · show gs.fireDir pid cx cy dx dy dmg (f' + 1) = gs
        simp [GameState.fireDir, hvf]
      · rcases hval : gs.arena.is_valid_position (cx + dx) (cy + dy) with _ | _
        · show gs.fireDir pid cx cy dx dy dmg (f' + 1) = gs
          simp [GameState.fireDir, hval]
        · show gs.fireDir pid cx cy dx dy dmg (f' + 1) = gs
          simp [GameState.fireDir, hval, hpf]
    · have hp1 := h_path 1 (le_refl 1) (by omega)
      have hx1 : cx + ((1 : Nat) : Int) * dx = cx + dx := by push_cast; ring
      have hy1 : cy + ((1 : Nat) : Int) * dy = cy + dy := by push_cast; ring
      rw [hx1, hy1] at hp1
      rw [fireDir_step_clear gs pid cx cy dx dy dmg f' hp1.1 hp1.2.1 hp1.2.2]
      have hxk : cx + dx + ((k' : Nat) : Int) * dx = cx + ((k' + 1 : Nat) : Int) * dx := by
        push_cast
        ring
      have hyk : cy + dy + ((k' : Nat) : Int) * dy = cy + ((k' + 1 : Nat) : Int) * dy := by
        push_cast
        ring
      refine ih (cx + dx) (cy + dy) f' (by omega) (by omega) ?_ ?_
      · intro t ht1 htk
        have hp := h_path (t + 1) (by omega) (by omega)
        have hxt : cx + dx + (t : Int) * dx = cx + ((t + 1 : Nat) : Int) * dx := by
          push_cast
          ring
        have hyt : cy + dy + (t : Int) * dy = cy + ((t + 1 : Nat) : Int) * dy := by
          push_cast
          ring
        rw [hxt, hyt]
        exact hp
      · rw [hxk, hyk]
        exact h_block

/-- Radius confinement of the fire scan: a ray that stays in bounds,
passable and free of enemies for the whole range budget leaves the state
untouched; in particular no cell beyond the budget is ever examined. -/
theorem fireDir_all_clear (gs : GameState) (pid dx dy dmg : Int) :
    ∀ (fuel : Nat) (cx cy : Int),
      (∀ t : Nat, 1 ≤ t → t ≤ fuel →
        gs.arena.is_valid_position (cx + t * dx) (cy + t * dy) = true ∧
        gs.arena.is_passable (cx + t * dx) (cy + t * dy) = true ∧
        (∀ j', alGet (cx + t * dx, cy + t * dy) gs.arena.robotsAt = some j' →
          (gs.getRobot j').player_id = pid)) →
      gs.fireDir pid cx cy dx dy dmg fuel = gs := by
  intro fuel
  induction fuel with
  | zero => intro cx cy _; rfl
  | succ f' ih =>
    intro cx cy hclear
    have hp1 := hclear 1 (le_refl 1) (by omega)
    have hx1 : cx + ((1 : Nat) : Int) * dx = cx + dx := by push_cast; ring
    have hy1 : cy + ((1 : Nat) : Int) * dy = cy + dy := by push_cast; ring
    rw [hx1, hy1] at hp1
    rw [fireDir_step_clear gs pid cx cy dx dy dmg f' hp1.1 hp1.2.1 hp1.2.2]
    refine ih (cx + dx) (cy + dy) ?_
    intro t ht1 htf
    have hp := hclear (t + 1) (by omega) (by omega)
    have hxt : cx + dx + (t : Int) * dx = cx + ((t + 1 : Nat) : Int) * dx := by
      push_cast
      ring
    have hyt : cy + dy + (t : Int) * dy = cy + ((t + 1 : Nat) : Int) * dy := by
      push_cast
      ring
    rw [hxt, hyt]
    exact hp

/-- First-enemy case of the fire scan: a clear path up to distance k - 1
and an enemy occupant at distance k within the budget; exactly that enemy
is damaged, mines are untouched, and when it survives so is the arena. -/
theorem fireDir_first_enemy (gs : GameState) (pid cx cy dx dy dmg : Int)
    (fuel k j : Nat)
    (h_j : j < gs.robots.length)
    (h_k1 : 1 ≤ k) (h_kf : k ≤ fuel)
    (h_path : ∀ t : Nat, 1 ≤ t → t < k →
       gs.arena.is_valid_position (cx + t * dx) (cy + t * dy) = true ∧
       gs.arena.is_passable (cx + t * dx) (cy + t * dy) = true ∧
       (∀ j', alGet (cx + t * dx, cy + t * dy) gs.arena.robotsAt = some j' →
          (gs.getRobot j').player_id = pid))
    (h_val : gs.arena.is_valid_position (cx + k * dx) (cy + k * dy) = true)
    (h_pass : gs.arena.is_passable (cx + k * dx) (cy + k * dy) = true)
    (h_occ : alGet (cx + k * dx, cy + k * dy) gs.arena.robotsAt = some j)
    (h_enemy : (gs.getRobot j).player_id ≠ pid) :
    (gs.fireDir pid cx cy dx dy dmg fuel).robots =
      gs.robots.set j ((gs.getRobot j).take_damage dmg) ∧
    (gs.fireDir pid cx cy dx dy dmg fuel).arena.mines = gs.arena.mines ∧
    (((gs.getRobot j).take_damage dmg).is_alive = true →
       (gs.fireDir pid cx cy dx dy dmg fuel).arena = gs.arena) := by
  induction k generalizing cx cy fuel with
  | zero => omega
  | succ k' ih =>
    rcases fuel with _ | f'
    · omega
    by_cases hk0 : k' = 0
    · subst hk0
      have hx1 : cx + ((1 : Nat) : Int) * dx = cx + dx := by push_cast; ring
      have hy1 : cy + ((1 : Nat) : Int) * dy = cy + dy := by push_cast; ring
      rw [hx1, hy1] at h_val h_pass h_occ
      simp only [GameState.fireDir, h_val, h_pass, Bool.not_true,
        Bool.false_eq_true, if_false, h_occ, if_pos h_enemy]
      have hj1 : ((gs.modifyRobot j (fun rr => rr.take_damage dmg)).getRobot j) =
          (gs.getRobot j).take_damage dmg :=
        GameState.getRobot_setRobot_self gs j _ h_j
      constructor
      · by_cases hc : ((gs.getRobot j).is_alive &&
            !((gs.modifyRobot j (fun rr => rr.take_damage dmg)).getRobot j).is_alive) = true
        · rw [if_pos hc, GameState.handle_robot_death_robots]
          rfl
        · rw [if_neg hc]
          rfl
      constructor
      · by_cases hc : ((gs.getRobot j).is_alive &&
            !((gs.modifyRobot j (fun rr => rr.take_damage dmg)).getRobot j).is_alive) = true
        · rw [if_pos hc, GameState.handle_robot_death_mines]
          rfl
        · rw [if_neg hc]
          rfl
      · intro hsurv
        rw [if_neg ?_]
        · rfl
        · rw [hj1, hsurv]
          simp
    · have hk'1 : 1 ≤ k' := by omega
      have hp1 := h_path 1 (le_refl 1) (by omega)
      have hx1 : cx + ((1 : Nat) : Int) * dx = cx + dx := by push_cast; ring
      have hy1 : cy + ((1 : Nat) : Int) * dy = cy + dy := by push_cast; ring
      rw [hx1, hy1] at hp1
      have hrec : gs.fireDir pid cx cy dx dy dmg (f' + 1) =
          gs.fireDir pid (cx + dx) (cy + dy) dx dy dmg f' := by
        simp only [GameState.fireDir, hp1.1, hp1.2.1, Bool.not_true,
          Bool.false_eq_true, if_false, if_true]
        rcases halG : alGet (cx + dx, cy + dy) gs.arena.robotsAt with _ | j₂
        · rfl
        · exact if_neg (by simp [hp1.2.2 j₂ halG])
      rw [hrec]
      have hxk : cx + dx + ((k' : Nat) : Int) * dx = cx + ((k' + 1 : Nat) : Int) * dx := by
        push_cast
        ring
      have hyk : cy + dy + ((k' : Nat) : Int) * dy = cy + ((k' + 1 : Nat) : Int) * dy := by
        push_cast
        ring
      exact ih (cx + dx) (cy + dy) f' (by omega) (by omega)
        (by
          intro t ht1 htk
          have hp := h_path (t + 1) (by omega) (by omega)
          have hxt : cx + dx + (t : Int) * dx = cx + ((t + 1 : Nat) : Int) * dx := by
            push_cast
            ring
          have hyt : cy + dy + (t : Int) * dy = cy + ((t + 1 : Nat) : Int) * dy := by
            push_cast
            ring
          rw [hxt, hyt]
          exact hp)
        (by rw [hxk, hyk]; exact h_val)
        (by rw [hxk, hyk]; exact h_pass)
        (by rw [hxk, hyk]; exact h_occ)

/-- An unoccupied cell trivially satisfies the only-same-side-occupants
path condition of the fire-scan lemmas. -/
theorem occupant_same_side_of_none {gs : GameState} {p : Int × Int} {pid : Int}
    (hnone : alGet p gs.arena.robotsAt = none) (j' : Nat)
    (hj' : alGet p gs.arena.robotsAt = some j') :
    (gs.getRobot j').player_id = pid :=
  Option.noConfusion (hnone ▸ hj')

/-- Claim C2 as amended: in one scan direction of row or column fire, with
cells examined outward up to the range budget, (1) a clear path followed by
an out-of-bounds or impassable (Obstacle/Wreck) cell stops the shot with no
effect on the state; (2) a ray that is in bounds, passable, and free of
enemies for the whole budget leaves the state untouched, so nothing beyond
the radius is ever hit; (3) a clear path followed by an enemy occupant at
distance k within the budget damages exactly that enemy (same-side
occupants on the way neither block the shot nor take damage; an Invisible
enemy is not excluded), leaves the mines untouched, and, when the enemy
survives, leaves the whole arena untouched. A clear path cell is in
bounds, passable, and empty or occupied by a same-side robot. -/
theorem C2_fire_scan_characterization (gs : GameState)
    (pid cx cy dx dy dmg : Int) (fuel : Nat) :
    (∀ k : Nat, 1 ≤ k → k ≤ fuel →
      (∀ t : Nat, 1 ≤ t → t < k →
        gs.arena.is_valid_position (cx + t * dx) (cy + t * dy) = true ∧
        gs.arena.is_passable (cx + t * dx) (cy + t * dy) = true ∧
        (∀ j', alGet (cx + t * dx, cy + t * dy) gs.arena.robotsAt = some j' →
          (gs.getRobot j').player_id = pid)) →
      (gs.arena.is_valid_position (cx + k * dx) (cy + k * dy) = false ∨
       gs.arena.is_passable (cx + k * dx) (cy + k * dy) = false) →
      gs.fireDir pid cx cy dx dy dmg fuel = gs) ∧
    ((∀ t : Nat, 1 ≤ t → t ≤ fuel →
        gs.arena.is_valid_position (cx + t * dx) (cy + t * dy) = true ∧
        gs.arena.is_passable (cx + t * dx) (cy + t * dy) = true ∧
        (∀ j', alGet (cx + t * dx, cy + t * dy) gs.arena.robotsAt = some j' →
          (gs.getRobot j').player_id = pid)) →
      gs.fireDir pid cx cy dx dy dmg fuel = gs) ∧
    (∀ k j : Nat, j < gs.robots.length → 1 ≤ k → k ≤ fuel →
      (∀ t : Nat, 1 ≤ t → t < k →
        gs.arena.is_valid_position (cx + t * dx) (cy + t * dy) = true ∧
        gs.arena.is_passable (cx + t * dx) (cy + t * dy) = true ∧
        (∀ j', alGet (cx + t * dx, cy + t * dy) gs.arena.robotsAt = some j' →
          (gs.getRobot j').player_id = pid)) →
      gs.arena.is_valid_position (cx + k * dx) (cy + k * dy) = true →
      gs.arena.is_passable (cx + k * dx) (cy + k * dy) = true →
      alGet (cx + k * dx, cy + k * dy) gs.arena.robotsAt = some j →
      (gs.getRobot j).player_id ≠ pid →
      (gs.fireDir pid cx cy dx dy dmg fuel).robots =
        gs.robots.set j ((gs.getRobot j).take_damage dmg) ∧
      (gs.fireDir pid cx cy dx dy dmg fuel).arena.mines = gs.arena.mines ∧
      (((gs.getRobot j).take_damage dmg).is_alive = true →
        (gs.fireDir pid cx cy dx dy dmg fuel).arena = gs.arena)) :=
  ⟨fun k hk1 hkf hpath hblock =>
      fireDir_stops_blocked gs pid cx cy dx dy dmg fuel k hk1 hkf hpath hblock,
   fun hclear => fireDir_all_clear gs pid dx dy dmg fuel cx cy hclear,
   fun k j hj hk1 hkf hpath hval hpass hocc henemy =>
      fireDir_first_enemy gs pid cx cy dx dy dmg fuel k j hj hk1 hkf hpath
        hval hpass hocc henemy⟩

/-- Witness for the amended claim C2 at the counterexample state: scanning
east, the cells at distances 1..4 are empty and the cell at distance 5 is
out of bounds, so the shot has no effect; scanning north, the whole
5-cell budget is clear, so the shot has no effect; scanning west, the
friendly robot at distance 1 is passed through and the enemy at distance 2
takes the damage, and since it survives the arena is untouched. -/
theorem C2_fire_scan_characterization_witness :
    c2State.fireDir 1 5 5 1 0 200 5 = c2State ∧
    c2State.fireDir 1 5 5 0 (-1) 200 5 = c2State ∧
    (c2State.fireDir 1 5 5 (-1) 0 200 5).robots =
      c2State.robots.set 2 ((c2State.getRobot 2).take_damage 200) ∧
    (c2State.fireDir 1 5 5 (-1) 0 200 5).arena = c2State.arena := by
  have hE := (C2_fire_scan_characterization c2State 1 5 5 1 0 200 5).1 5
    (by decide) (le_refl 5)
    (by
      intro t ht1 htk
      have ht : t = 1 ∨ t = 2 ∨ t = 3 ∨ t = 4 := by omega
      rcases ht with h | h | h | h <;> subst h <;>
        exact ⟨by decide, by decide,
          fun j' hj' => occupant_same_side_of_none (by decide) j' hj'⟩)
    (Or.inl (by decide))
  have hN := (C2_fire_scan_characterization c2State 1 5 5 0 (-1) 200 5).2.1
    (by
      intro t ht1 htf
      have ht : t = 1 ∨ t = 2 ∨ t = 3 ∨ t = 4 ∨ t = 5 := by omega
      rcases ht with h | h | h | h | h <;> subst h <;>
        exact ⟨by decide, by decide,
          fun j' hj' => occupant_same_side_of_none (by decide) j' hj'⟩)
  have hW := (C2_fire_scan_characterization c2State 1 5 5 (-1) 0 200 5).2.2 2 2
    (by decide) (by decide) (by decide)
    (by
      intro t ht1 htk
      have ht : t = 1 := by omega
      subst ht
      refine ⟨by decide, by decide, ?_⟩
      intro j' hj'
      have h4 : alGet ((5 : Int) + ((1 : Nat) : Int) * (-1),
          (5 : Int) + ((1 : Nat) : Int) * 0) c2State.arena.robotsAt = some 1 := by
        decide
      have hj1 : j' = 1 := Option.some_inj.mp (hj'.symm.trans h4)
      subst hj1
      decide)
    (by decide) (by decide) (by decide) (by decide)
  exact ⟨hE, hN, hW.1, hW.2.2 (by decide)⟩

/-! ## Frame machinery for the turn invariants (claims C8 and C10)

RobotsRelI Q gs gs' states that the roster keeps its length and that the
robot at every index k evolves along the per-index relation Q k. The engine
lemmas below show every phase of a battle turn respects such a relation
provided Q tolerates the robot mutators the phase applies: damage can reach
any robot, while energy charges, position changes, invisibility and
freezing only ever target the acting robot. -/

section FrameMachinery

def RobotsRelI (Q : Nat → Robot → Robot → Prop) (gs gs' : GameState) : Prop :=
  gs'.robots.length = gs.robots.length ∧
  ∀ k r, gs.robots.get? k = some r →
    ∃ r', gs'.robots.get? k = some r' ∧ Q k r r'

/-- The universal tolerances: reflexivity, transitivity, damage (any index)
and the invisibility tick (any index). -/
structure EngineQ (Q : Nat → Robot → Robot → Prop) : Prop where
  qrefl : ∀ k r, Q k r r
  qtrans : ∀ k a b c, Q k a b → Q k b c → Q k a c
  qtd : ∀ k r d, Q k r (r.take_damage d)
  qui : ∀ k r, Q k r r.update_invisibility

/-- The acting-robot tolerances: energy charge, repositioning, going
invisible, freezing. -/
def actorOk (Q : Nat → Robot → Robot → Prop) (i : Nat) : Prop :=
  (∀ r c, Q i r (r.use_energy c).2) ∧
  (∀ r x y, Q i r (r.set_position x y)) ∧
  (∀ r t, Q i r (r.set_invisible t)) ∧
  (∀ r, Q i r { r with status := RobotStatus.frozen })

theorem relI_refl {Q} (hQ : EngineQ Q) (gs : GameState) : RobotsRelI Q gs gs :=
  ⟨rfl, fun k r hr => ⟨r, hr, hQ.qrefl k r⟩⟩

theorem relI_trans {Q} (hQ : EngineQ Q) {gs gs' gs'' : GameState}
    (h1 : RobotsRelI Q gs gs') (h2 : RobotsRelI Q gs' gs'') :
    RobotsRelI Q gs gs'' := by
  refine ⟨h2.1.trans h1.1, fun k r hr => ?_⟩
  obtain ⟨r', hr', hq1⟩ := h1.2 k r hr
  obtain ⟨r'', hr'', hq2⟩ := h2.2 k r' hr'
  exact ⟨r'', hr'', hQ.qtrans k r r' r'' hq1 hq2⟩

theorem relI_of_robots_eq {Q} (hQ : EngineQ Q) {gs gs' : GameState}
    (h : gs'.robots = gs.robots) : RobotsRelI Q gs gs' :=
  ⟨by rw [h], fun k r hr => ⟨r, by rw [h]; exact hr, hQ.qrefl k r⟩⟩

theorem relI_setRobot {Q} (hQ : EngineQ Q) (gs : GameState) (i : Nat) (r' : Robot)
    (h : Q i (gs.getRobot i) r') : RobotsRelI Q gs (gs.setRobot i r') := by
  refine ⟨GameState.setRobot_length gs i r', fun k r hr => ?_⟩
  by_cases hk : k = i
  · subst hk
    have hlt : k < gs.robots.length := by
      by_contra hge
      rw [List.get?_eq_none.mpr (by omega)] at hr
      exact Option.noConfusion hr
    have hget : gs.getRobot k = r := by
      rw [GameState.getRobot, getD_get?, hr]
      rfl
    refine ⟨r', ?_, hget ▸ h⟩
    show (gs.robots.set k r').get? k = some r'
    rw [List.get?_set_eq_of_lt r' hlt]
  · exact ⟨r, by rw [GameState.get?_setRobot_ne gs i k r' hk]; exact hr, hQ.qrefl k r⟩

theorem relI_modifyRobot {Q} (hQ : EngineQ Q) (gs : GameState) (i : Nat)
    (f : Robot → Robot) (h : ∀ r, Q i r (f r)) :
    RobotsRelI Q gs (gs.modifyRobot i f) :=
  relI_setRobot hQ gs i _ (h (gs.getRobot i))

theorem relI_handle_robot_death {Q} (hQ : EngineQ Q) (gs : GameState) (i : Nat) :
    RobotsRelI Q gs (gs.handle_robot_death i) :=
  relI_of_robots_eq hQ (GameState.handle_robot_death_robots gs i)

theorem relI_place_mine {Q} (hQ : EngineQ Q) (gs : GameState) (i : Nat) :
    RobotsRelI Q gs (gs.place_mine i) := by
  apply relI_of_robots_eq hQ
  simp only [GameState.place_mine]
  split <;> rfl

theorem relI_fireDir {Q} (hQ : EngineQ Q) (gs : GameState)
    (pid cx cy dx dy dmg : Int) (fuel : Nat) :
    RobotsRelI Q gs (gs.fireDir pid cx cy dx dy dmg fuel) := by
  induction fuel generalizing gs cx cy with
  | zero => exact relI_refl hQ gs
  | succ f ih =>
    show RobotsRelI Q gs (gs.fireDir pid cx cy dx dy dmg (f + 1))
    rw [GameState.fireDir]
    split
    · exact relI_refl hQ gs
    split
    · exact relI_refl hQ gs
    split
    · next j heq =>
      split
      · try dsimp only
        have h1 : RobotsRelI Q gs (gs.modifyRobot j (·.take_damage dmg)) :=
          relI_modifyRobot hQ gs j _ (fun r => hQ.qtd j r dmg)
        split
        · exact relI_trans hQ h1 (relI_handle_robot_death hQ _ j)
        · exact h1
      · exact ih gs _ _
    · exact ih gs _ _

theorem relI_fire_row {Q} (hQ : EngineQ Q) (gs : GameState) (i : Nat) :
    RobotsRelI Q gs (gs.fire_row i) := by
  rw [GameState.fire_row]
  exact relI_trans hQ (relI_fireDir hQ gs _ _ _ _ _ _ _) (relI_fireDir hQ _ _ _ _ _ _ _ _)

theorem relI_fire_column {Q} (hQ : EngineQ Q) (gs : GameState) (i : Nat) :
    RobotsRelI Q gs (gs.fire_column i) := by
  rw [GameState.fire_column]
  exact relI_trans hQ (relI_fireDir hQ gs _ _ _ _ _ _ _) (relI_fireDir hQ _ _ _ _ _ _ _ _)

theorem relI_move_robot {Q} (hQ : EngineQ Q) (gs : GameState) (i : Nat)
    (hA : actorOk Q i) (d? : Option Direction) :
    RobotsRelI Q gs (gs.move_robot i d?) := by
  rcases d? with _ | d
  · exact relI_refl hQ gs
  rw [GameState.move_robot]
  split
  · exact relI_refl hQ gs
  split
  · exact relI_refl hQ gs
  split
  · split
    · next mine_id damage a' heq =>
      try dsimp only
      split
      · exact relI_of_robots_eq hQ rfl
      · split
        · exact relI_trans hQ
            (relI_trans hQ
              (relI_trans hQ (relI_of_robots_eq hQ rfl)
                (relI_modifyRobot hQ _ i _ (fun r => hA.2.1 r _ _)))
              (relI_modifyRobot hQ _ i _ (fun r => hQ.qtd i r _)))
            (relI_handle_robot_death hQ _ i)
        · exact relI_trans hQ
            (relI_trans hQ (relI_of_robots_eq hQ rfl)
              (relI_modifyRobot hQ _ i _ (fun r => hA.2.1 r _ _)))
            (relI_modifyRobot hQ _ i _ (fun r => hQ.qtd i r _))
    · next a' heq =>
      try dsimp only
      exact relI_trans hQ (relI_of_robots_eq hQ rfl)
        (relI_modifyRobot hQ _ i _ (fun r => hA.2.1 r _ _))
  · exact relI_trans hQ (relI_of_robots_eq hQ rfl)
      (relI_modifyRobot hQ _ i _ (fun r => hA.2.1 r _ _))

theorem get_random_direction_robots (gs : GameState) :
    (gs.get_random_direction).2.robots = gs.robots := by
  rw [GameState.get_random_direction]
  split <;> rfl

theorem relI_execute_single {Q} (hQ : EngineQ Q) (i : Nat) (hA : actorOk Q i) :
    ∀ (fuel : Nat) (gs : GameState) (instr : Instruction),
      RobotsRelI Q gs (gs.execute_single_instruction i instr fuel) := by
  intro fuel
  induction fuel with
  | zero => intro gs instr; exact relI_refl hQ gs
  | succ f ih =>
    intro gs instr
    show RobotsRelI Q gs (gs.execute_single_instruction i instr (f + 1))
    rw [GameState.execute_single_instruction]
    rcases instr with ⟨ty, dir, par⟩
    cases ty
    case DM => exact relI_move_robot hQ gs i hA _
    case RM =>
      try dsimp only
      rcases heq : gs.get_random_direction with ⟨dd, gg⟩
      have hrob : gg.robots = gs.robots := by
        have := get_random_direction_robots gs
        rw [heq] at this
        exact this
      exact relI_trans hQ (relI_of_robots_eq hQ hrob) (relI_move_robot hQ gg i hA _)
    case IN => exact relI_modifyRobot hQ gs i _ (fun r => hA.2.2.1 r 1)
    case MI => exact relI_place_mine hQ gs i
    case PM => exact relI_move_robot hQ gs i hA _
    case AM => exact relI_move_robot hQ gs i hA _
    case FR => exact relI_fire_row hQ gs i
    case FC => exact relI_fire_column hQ gs i
    case PT =>
      try dsimp only
      rcases par with _ | ⟨aT, aF⟩
      · exact relI_refl hQ gs
      try dsimp only
      split
      · exact relI_refl hQ gs
      · next ci hci =>
        try dsimp only
        split
        · exact relI_trans hQ
            (relI_setRobot hQ gs i _ (hA.1 (gs.getRobot i) _)) (ih _ ci)
        · exact relI_refl hQ gs

theorem relI_execute_emergency {Q} (hQ : EngineQ Q) (gs : GameState) (i : Nat)
    (hA : actorOk Q i) : RobotsRelI Q gs (gs.execute_emergency_routine i) := by
  rw [GameState.execute_emergency_routine]
  try dsimp only
  split
  · exact relI_refl hQ gs
  split
  · exact relI_refl hQ gs
  next ea hea ei hei =>
    try dsimp only
    split
    · split
      · try dsimp only
        split
        · exact relI_trans hQ
            (relI_trans hQ (relI_setRobot hQ gs i _ (hA.1 (gs.getRobot i) _))
              (relI_execute_single hQ i hA _ _ ei))
            (relI_handle_robot_death hQ _ i)
        · exact relI_trans hQ (relI_setRobot hQ gs i _ (hA.1 (gs.getRobot i) _))
            (relI_execute_single hQ i hA _ _ ei)
      · exact relI_refl hQ gs
    · exact relI_modifyRobot hQ gs i _ (fun r => hA.2.2.2 r)

/-- A robot that is dead or frozen is never dispatched: the step is the
identity. -/
theorem dispatchOne_skip (gs : GameState) (i : Nat)
    (h : (gs.getRobot i).is_alive = false ∨ (gs.getRobot i).can_execute = false) :
    gs.dispatchOne i = gs := by
  rw [GameState.dispatchOne]
  rcases h with h | h
  · rw [if_pos (by rw [h]; rfl)]
  · by_cases ha : (gs.getRobot i).is_alive = true
    · rw [if_neg (by rw [ha]; simp), if_pos (by rw [h]; rfl)]
    · rw [if_pos (by simp [Bool.not_eq_true] at ha; rw [ha]; rfl)]

theorem relI_dispatchOne {Q} (hQ : EngineQ Q) (gs : GameState) (i : Nat)
    (hA : (gs.getRobot i).is_alive = true → (gs.getRobot i).can_execute = true →
      actorOk Q i) :
    RobotsRelI Q gs (gs.dispatchOne i) := by
  by_cases halive : (gs.getRobot i).is_alive = true
  · by_cases hexec : (gs.getRobot i).can_execute = true
    · have hA' := hA halive hexec
      rw [GameState.dispatchOne]
      rw [if_neg (by rw [halive]; simp), if_neg (by rw [hexec]; simp)]
      split
      · exact relI_refl hQ gs
      next s hs =>
      try dsimp only
      split
      · exact relI_refl hQ gs
      split
      · exact relI_refl hQ gs
      next instr hparse =>
      try dsimp only
      split
      · split
        · exact relI_execute_emergency hQ gs i hA'
        · exact relI_modifyRobot hQ gs i _ (fun r => hA'.2.2.2 r)
      · split
        · exact relI_refl hQ gs
        · try dsimp only
          split
          · exact relI_trans hQ
              (relI_setRobot hQ gs i _ (hA'.1 (gs.getRobot i) _))
              (relI_handle_robot_death hQ _ i)
          · exact relI_trans hQ
              (relI_setRobot hQ gs i _ (hA'.1 (gs.getRobot i) _))
              (relI_execute_single hQ i hA' _ _ instr)
    · rw [dispatchOne_skip gs i (Or.inr (by simpa using hexec))]
      exact relI_refl hQ gs
  · rw [dispatchOne_skip gs i (Or.inl (by simpa using halive))]
    exact relI_refl hQ gs

theorem relI_execute_robot_instructions {Q} (hQ : EngineQ Q) :
    ∀ (L : List Nat) (gs : GameState),
      (∀ gs' j, RobotsRelI Q gs gs' → j ∈ L →
        ((gs'.getRobot j).is_alive = true → (gs'.getRobot j).can_execute = true →
          actorOk Q j)) →
      RobotsRelI Q gs (gs.execute_robot_instructions L) := by
  intro L
  induction L with
  | nil => intro gs _; exact relI_refl hQ gs
  | cons j rest ih =>
    intro gs hact
    show RobotsRelI Q gs ((gs.dispatchOne j).execute_robot_instructions rest)
    have h1 : RobotsRelI Q gs (gs.dispatchOne j) :=
      relI_dispatchOne hQ gs j (hact gs j (relI_refl hQ gs) (List.mem_cons_self j rest))
    refine relI_trans hQ h1 (ih (gs.dispatchOne j) ?_)
    intro gs' k hrel hk
    exact hact gs' k (relI_trans hQ h1 hrel) (List.mem_cons.mpr (Or.inr hk))

theorem relI_tickInvisibility {Q} (hQ : EngineQ Q) :
    ∀ (L : List Nat) (gs : GameState), RobotsRelI Q gs (gs.tickInvisibility L) := by
  intro L
  induction L with
  | nil => intro gs; exact relI_refl hQ gs
  | cons j rest ih =>
    intro gs
    exact relI_trans hQ
      (relI_modifyRobot hQ gs j Robot.update_invisibility (fun r => hQ.qui j r))
      (ih _)

theorem relI_advanceCounters {Q} (hQ : EngineQ Q) :
    ∀ (L : List Nat) (gs : GameState),
      (∀ gs' k, RobotsRelI Q gs gs' → k ∈ L →
        (gs'.getRobot k).can_execute = true →
        Q k (gs'.getRobot k) (gs'.getRobot k).advance_program_counter) →
      RobotsRelI Q gs (gs.advanceCounters L) := by
  intro L
  induction L with
  | nil => intro gs _; exact relI_refl hQ gs
  | cons j rest ih =>
    intro gs hadv
    show RobotsRelI Q gs ((if (gs.getRobot j).can_execute
        then gs.modifyRobot j Robot.advance_program_counter else gs).advanceCounters rest)
    have h1 : RobotsRelI Q gs (if (gs.getRobot j).can_execute
        then gs.modifyRobot j Robot.advance_program_counter else gs) := by
      split
      · next hce =>
        exact relI_setRobot hQ gs j _
          (hadv gs j (relI_refl hQ gs) (List.mem_cons_self j rest) hce)
      · exact relI_refl hQ gs
    refine relI_trans hQ h1 (ih _ ?_)
    intro gs' k hrel hk
    exact hadv gs' k (relI_trans hQ h1 hrel) (List.mem_cons.mpr (Or.inr hk))

theorem relI_determine_winner {Q} (hQ : EngineQ Q) (gs : GameState) :
    RobotsRelI Q gs gs.determine_winner :=
  relI_of_robots_eq hQ rfl

/-- Program-counter frame: the program counter and the program of every
robot are untouched by the invisibility tick and the instruction pass. -/
def pcQ : Nat → Robot → Robot → Prop := fun _ r r' =>
  r'.program_counter = r.program_counter ∧ r'.program = r.program

theorem pcQ_engine : EngineQ pcQ := by
  refine ⟨fun k r => ⟨rfl, rfl⟩, fun k a b c h1 h2 => ⟨h2.1.trans h1.1, h2.2.trans h1.2⟩,
    fun k r d => ⟨rfl, rfl⟩, fun k r => ?_⟩
  rw [Robot.update_invisibility]
  split
  · dsimp only
    split <;> exact ⟨rfl, rfl⟩
  · exact ⟨rfl, rfl⟩

theorem pcQ_actorOk (i : Nat) : actorOk pcQ i := by
  refine ⟨fun r c => ?_, fun r x y => ⟨rfl, rfl⟩, fun r t => ⟨rfl, rfl⟩,
    fun r => ⟨rfl, rfl⟩⟩
  rw [Robot.use_energy]
  split <;> exact ⟨rfl, rfl⟩

/-- Spectator frame for one index: position, counter and program of the
watched robot never change, a frozen watched robot stays frozen or dies,
and a dead watched robot stays dead. -/
def spectOk (r r' : Robot) : Prop :=
  r'.x = r.x ∧ r'.y = r.y ∧ r'.program_counter = r.program_counter ∧
  r'.program = r.program ∧
  (r.status = .frozen → r'.status = .frozen ∨ r'.status = .dead) ∧
  (r.status = .dead → r'.status = .dead)

def spectQ (i : Nat) : Nat → Robot → Robot → Prop := fun k r r' =>
  k = i → spectOk r r'

theorem spectOk_refl (r : Robot) : spectOk r r :=
  ⟨rfl, rfl, rfl, rfl, fun h => Or.inl h, fun h => h⟩

theorem spectOk_trans {a b c : Robot} (h1 : spectOk a b) (h2 : spectOk b c) :
    spectOk a c := by
  refine ⟨h2.1.trans h1.1, h2.2.1.trans h1.2.1, h2.2.2.1.trans h1.2.2.1,
    h2.2.2.2.1.trans h1.2.2.2.1, ?_, ?_⟩
  · intro hf
    rcases h1.2.2.2.2.1 hf with hb | hb
    · exact h2.2.2.2.2.1 hb
    · exact Or.inr (h2.2.2.2.2.2 hb)
  · intro hd
    exact h2.2.2.2.2.2 (h1.2.2.2.2.2 hd)

theorem spectOk_take_damage (r : Robot) (d : Int) : spectOk r (r.take_damage d) := by
  refine ⟨rfl, rfl, rfl, rfl, ?_, ?_⟩ <;> intro h <;>
    simp only [Robot.take_damage] <;> split
  · exact Or.inr rfl
  · exact Or.inl h
  · rfl
  · exact h

theorem spectOk_update_invisibility (r : Robot) : spectOk r r.update_invisibility := by
  rw [Robot.update_invisibility]
  split
  · next hinv =>
    dsimp only
    split <;>
      exact ⟨rfl, rfl, rfl, rfl, fun h => by rw [hinv] at h; exact absurd h (by decide),
        fun h => by rw [hinv] at h; exact absurd h (by decide)⟩
  · exact spectOk_refl r

theorem spectQ_engine (i : Nat) : EngineQ (spectQ i) := by
  refine ⟨fun k r hk => spectOk_refl r,
    fun k a b c h1 h2 hk => spectOk_trans (h1 hk) (h2 hk),
    fun k r d hk => spectOk_take_damage r d,
    fun k r hk => spectOk_update_invisibility r⟩

theorem spectQ_actorOk_ne (i j : Nat) (h : j ≠ i) : actorOk (spectQ i) j :=
  ⟨fun r c hk => absurd hk h, fun r x y hk => absurd hk h,
   fun r t hk => absurd hk h, fun r hk => absurd hk h⟩

theorem can_execute_false_of_fd (r : Robot)
    (h : r.status = .frozen ∨ r.status = .dead) : r.can_execute = false := by
  rcases h with h | h <;> simp [Robot.can_execute, h]

theorem can_execute_iff (r : Robot) :
    r.can_execute = true ↔ r.status ≠ .dead ∧ r.status ≠ .frozen := by
  simp [Robot.can_execute]

theorem is_alive_iff (r : Robot) : r.is_alive = true ↔ r.status ≠ .dead := by
  simp [Robot.is_alive]

/-- The watched robot of a spectator relation keeps a frozen-or-dead status
across the relation, and stays located at a some-value of the roster. -/
theorem spect_carrier {i : Nat} {gs gs' : GameState} {r0 : Robot}
    (h0 : gs.robots.get? i = some r0)
    (hfd : r0.status = .frozen ∨ r0.status = .dead)
    (hrel : RobotsRelI (spectQ i) gs gs') :
    ∃ r', gs'.robots.get? i = some r' ∧ spectOk r0 r' ∧
      (r'.status = .frozen ∨ r'.status = .dead) := by
  obtain ⟨r', hr', hq⟩ := hrel.2 i r0 h0
  have hsp := hq rfl
  refine ⟨r', hr', hsp, ?_⟩
  rcases hfd with hf | hd
  · exact hsp.2.2.2.2.1 hf
  · exact Or.inr (hsp.2.2.2.2.2 hd)

theorem getRobot_of_get? {gs : GameState} {i : Nat} {r : Robot}
    (h : gs.robots.get? i = some r) : gs.getRobot i = r := by
  rw [GameState.getRobot, getD_get?, h]
  rfl

/-- A frozen-or-dead robot is a pure spectator of the invisibility tick and
the instruction pass of a turn. -/
theorem spect_tick_instr (gs : GameState) (i : Nat) (r0 : Robot) (L : List Nat)
    (h0 : gs.robots.get? i = some r0)
    (hfd : r0.status = .frozen ∨ r0.status = .dead) :
    RobotsRelI (spectQ i) gs
      ((gs.tickInvisibility L).execute_robot_instructions L) := by
  have hQ := spectQ_engine i
  have h1 : RobotsRelI (spectQ i) gs (gs.tickInvisibility L) :=
    relI_tickInvisibility hQ L gs
  refine relI_trans hQ h1 (relI_execute_robot_instructions hQ L (gs.tickInvisibility L) ?_)
  intro gs' j hrel hj halive hexec
  by_cases hji : j = i
  · subst hji
    obtain ⟨r', hr', _, hfd'⟩ := spect_carrier h0 hfd (relI_trans hQ h1 hrel)
    rw [getRobot_of_get? hr', can_execute_false_of_fd r' hfd'] at hexec
    exact absurd hexec (by decide)
  · exact spectQ_actorOk_ne i j hji

/-- A frozen-or-dead robot is a pure spectator of a whole battle turn. -/
theorem spect_execute_turn (gs : GameState) (i : Nat) (r0 : Robot)
    (h0 : gs.robots.get? i = some r0)
    (hfd : r0.status = .frozen ∨ r0.status = .dead) :
    RobotsRelI (spectQ i) gs (gs.execute_turn).2 := by
  have hQ := spectQ_engine i
  rw [GameState.execute_turn]
  split
  · exact relI_refl hQ gs
  try dsimp only
  split
  · exact relI_determine_winner hQ gs
  split
  · exact relI_determine_winner hQ gs
  have h2 := spect_tick_instr gs i r0 gs.livingIdx h0 hfd
  have h3 : RobotsRelI (spectQ i) gs
      (((gs.tickInvisibility gs.livingIdx).execute_robot_instructions
        gs.livingIdx).advanceCounters gs.livingIdx) := by
    refine relI_trans hQ h2 (relI_advanceCounters hQ gs.livingIdx _ ?_)
    intro gs' k hrel hk hce
    by_cases hki : k = i
    · subst hki
      obtain ⟨r', hr', _, hfd'⟩ := spect_carrier h0 hfd (relI_trans hQ h2 hrel)
      rw [getRobot_of_get? hr', can_execute_false_of_fd r' hfd'] at hce
      exact absurd hce (by decide)
    · exact fun hk' => absurd hk' hki
  exact relI_trans hQ h3 (relI_of_robots_eq hQ rfl)

/-- A frozen-or-dead robot is a pure spectator of every later battle turn. -/
theorem spect_runTurns (gs : GameState) (i : Nat) (r0 : Robot)
    (h0 : gs.robots.get? i = some r0)
    (hfd : r0.status = .frozen ∨ r0.status = .dead) :
    ∀ n, RobotsRelI (spectQ i) gs (gs.runTurns n) := by
  intro n
  induction n generalizing gs r0 with
  | zero => exact relI_refl (spectQ_engine i) gs
  | succ m ih =>
    have h1 := spect_execute_turn gs i r0 h0 hfd
    obtain ⟨r', hr', _, hfd'⟩ := spect_carrier h0 hfd h1
    exact relI_trans (spectQ_engine i) h1 (ih (gs.execute_turn).2 r' hr' hfd')

end FrameMachinery

/-! ## Claim C10 -/

/-- Claim C10: once a robot is Frozen, later battle turns never execute an
instruction or the emergency routine for it: across any number of turns its
position, its program counter and its program are unchanged, and its status
can only remain Frozen or become Dead (through externally applied damage);
it is never set back to Alive or Invisible. -/
theorem C10_frozen_is_sticky (gs : GameState) (i : Nat) (r0 : Robot)
    (h0 : gs.robots.get? i = some r0) (hf : r0.status = .frozen) (n : Nat) :
    ∃ r', (gs.runTurns n).robots.get? i = some r' ∧
      r'.x = r0.x ∧ r'.y = r0.y ∧ r'.program_counter = r0.program_counter ∧
      r'.program = r0.program ∧ (r'.status = .frozen ∨ r'.status = .dead) := by
  obtain ⟨r', hr', hsp, hfd'⟩ :=
    spect_carrier h0 (Or.inl hf) (spect_runTurns gs i r0 h0 (Or.inl hf) n)
  exact ⟨r', hr', hsp.1, hsp.2.1, hsp.2.2.1, hsp.2.2.2.1, hfd'⟩

/-- Concrete state for claim C10: robot 0 is frozen at (2,2); robot 1 is a
normal moving robot. -/
def c10State : GameState :=
  { arena := { width := 10, height := 10, grid := [], mines := [],
               robotsAt := [((2, 2), 0), ((8, 8), 1)] }
    robots := [{ Robot.new 1 2 2 500 with
                 status := .frozen
                 program := ["DM(E)".toList] },
               { Robot.new 2 8 8 1500 with program := ["DM(W)".toList] }]
    phase := .battle
    current_turn := 0
    max_turns := 100
    proximity_distance := 5
    winner_id := none
    rng := [] }

/-- Witness for claim C10: after two executed turns the frozen robot still
sits at (2,2) with counter 0 and an unchanged program, and its status is
still Frozen or has become Dead. -/
theorem C10_frozen_is_sticky_witness :
    ∃ r', (c10State.runTurns 2).robots.get? 0 = some r' ∧
      r'.x = 2 ∧ r'.y = 2 ∧ r'.program_counter = 0 ∧
      r'.program = ["DM(E)".toList] ∧
      (r'.status = .frozen ∨ r'.status = .dead) :=
  C10_frozen_is_sticky c10State 0
    { Robot.new 1 2 2 500 with status := .frozen, program := ["DM(E)".toList] }
    (by decide) (by decide) 2

/-! ## Claim C8 -/

section AdvanceLemmas

theorem advanceCounters_get?_not_mem :
    ∀ (L : List Nat) (gs : GameState) (i : Nat), i ∉ L →
      (gs.advanceCounters L).robots.get? i = gs.robots.get? i := by
  intro L
  induction L with
  | nil => intro gs i _; rfl
  | cons k rest ih =>
    intro gs i hmem
    have hik : i ≠ k := fun h => hmem (h ▸ List.mem_cons_self k rest)
    have hrest : i ∉ rest := fun h => hmem (List.mem_cons.mpr (Or.inr h))
    show ((if (gs.getRobot k).can_execute
        then gs.modifyRobot k Robot.advance_program_counter else gs).advanceCounters
          rest).robots.get? i = gs.robots.get? i
    rw [ih _ i hrest]
    split
    · exact GameState.get?_setRobot_ne gs k i _ hik
    · rfl

theorem advanceCounters_get?_mem :
    ∀ (L : List Nat) (gs : GameState) (i : Nat), L.Nodup → i ∈ L →
      (gs.advanceCounters L).robots.get? i =
        (gs.robots.get? i).map
          (fun r => if r.can_execute then r.advance_program_counter else r) := by
  intro L
  induction L with
  | nil => intro gs i _ h; exact absurd h (List.not_mem_nil i)
  | cons k rest ih =>
    intro gs i hnd hmem
    rw [List.nodup_cons] at hnd
    show ((if (gs.getRobot k).can_execute
        then gs.modifyRobot k Robot.advance_program_counter else gs).advanceCounters
          rest).robots.get? i = _
    by_cases hik : i = k
    · subst hik
      rw [advanceCounters_get?_not_mem rest _ i hnd.1]
      split
      · next hce =>
        show (gs.robots.set i _).get? i = _
        rw [List.get?_set_eq]
        rcases hg : gs.robots.get? i with _ | r
        · rfl
        · simp only [getRobot_of_get? hg] at hce
          simp [getRobot_of_get? hg, hce]
      · next hce =>
        rcases hg : gs.robots.get? i with _ | r
        · rfl
        · simp only [getRobot_of_get? hg, Bool.not_eq_true] at hce
          simp [hce]
    · have hrest : i ∈ rest := by
        rcases List.mem_cons.mp hmem with h | h
        · exact absurd h hik
        · exact h
      have hstep : (if (gs.getRobot k).can_execute
          then gs.modifyRobot k Robot.advance_program_counter else gs).robots.get? i =
          gs.robots.get? i := by
        split
        · exact GameState.get?_setRobot_ne gs k i _ hik
        · rfl
      rw [ih _ i hnd.2 hrest, hstep]

theorem livingIdx_nodup (gs : GameState) : gs.livingIdx.Nodup :=
  List.Nodup.filter _ (List.nodup_range _)

theorem mem_livingIdx (gs : GameState) (i : Nat) :
    i ∈ gs.livingIdx ↔ i < gs.robots.length ∧ (gs.getRobot i).is_alive = true := by
  simp [GameState.livingIdx, List.mem_filter, List.mem_range]

theorem advance_pc_status (r : Robot) :
    r.advance_program_counter.status = r.status := by
  rw [Robot.advance_program_counter]
  split <;> rfl

theorem advance_pc_program (r : Robot) :
    r.advance_program_counter.program = r.program := by
  rw [Robot.advance_program_counter]
  split <;> rfl

/-- An executed battle turn (pre-check passed) produces exactly the
tick-instructions-advance pipeline over the captured living roster, with
the turn number bumped. -/
theorem execute_turn_snd_of_true (gs : GameState)
    (h : (gs.execute_turn).1 = true) :
    (gs.execute_turn).2 =
      { (((gs.tickInvisibility gs.livingIdx).execute_robot_instructions
          gs.livingIdx).advanceCounters gs.livingIdx) with
        current_turn := (((gs.tickInvisibility gs.livingIdx).execute_robot_instructions
          gs.livingIdx).advanceCounters gs.livingIdx).current_turn + 1 } := by
  rw [GameState.execute_turn] at h ⊢
  split at h
  · exact Bool.noConfusion h
  next hphase =>
    rw [if_neg hphase]
    dsimp only at h ⊢
    split at h
    · exact Bool.noConfusion h
    next h2 =>
      rw [if_neg h2]
      split at h
      · exact Bool.noConfusion h
      next h3 =>
        rw [if_neg h3]

end AdvanceLemmas

/-- Claim C8: after each executed battle turn (one that passes the
termination pre-check), every robot that is neither Dead nor Frozen at the
counter-advancement step has its program counter advanced by exactly one
modulo its program length, regardless of whether its instruction executed an
effect that turn; Dead and Frozen robots, and robots with an empty program,
keep their counter unchanged. The status examined is the final one, which is
the status at the advancement step since advancement never changes status;
the program itself is never changed by a turn. -/
theorem C8_program_counters_advance (gs : GameState) (i : Nat) (r rf : Robot)
    (h_run : (gs.execute_turn).1 = true)
    (hget : gs.robots.get? i = some r)
    (hgetf : (gs.execute_turn).2.robots.get? i = some rf) :
    rf.program = r.program ∧
    (rf.status ≠ .dead → rf.status ≠ .frozen → r.program ≠ [] →
      rf.program_counter = (r.program_counter + 1) % r.program.length) ∧
    (rf.status = .dead ∨ rf.status = .frozen ∨ r.program = [] →
      rf.program_counter = r.program_counter) := by
  have hlt : i < gs.robots.length := by
    by_contra hge
    rw [List.get?_eq_none.mpr (by omega)] at hget
    exact Option.noConfusion hget
  by_cases hm : i ∈ gs.livingIdx
  · -- the robot was in the captured living roster
    rw [execute_turn_snd_of_true gs h_run] at hgetf
    have hgetf3 : ((((gs.tickInvisibility gs.livingIdx).execute_robot_instructions
        gs.livingIdx).advanceCounters gs.livingIdx)).robots.get? i = some rf := hgetf
    have hrel : RobotsRelI pcQ gs
        ((gs.tickInvisibility gs.livingIdx).execute_robot_instructions gs.livingIdx) :=
      relI_trans pcQ_engine (relI_tickInvisibility pcQ_engine gs.livingIdx gs)
        (relI_execute_robot_instructions pcQ_engine gs.livingIdx _
          (fun _ j _ _ => fun _ _ => pcQ_actorOk j))
    obtain ⟨r2, hr2, hpc2⟩ := hrel.2 i r hget
    rw [advanceCounters_get?_mem gs.livingIdx _ i (livingIdx_nodup gs) hm, hr2] at hgetf3
    have hrf : rf = if r2.can_execute then r2.advance_program_counter else r2 :=
      (Option.some_inj.mp hgetf3).symm
    by_cases hce : r2.can_execute = true
    · rw [if_pos hce] at hrf
      have hstat : rf.status = r2.status := by rw [hrf, advance_pc_status]
      have hprog : rf.program = r.program := by
        rw [hrf, advance_pc_program, hpc2.2]
      refine ⟨hprog, fun _ _ hne => ?_, fun h => ?_⟩
      · have hne2 : r2.program ≠ [] := by rw [hpc2.2]; exact hne
        rw [hrf, Robot.advance_program_counter, if_pos hne2]
        dsimp only
        rw [hpc2.1, hpc2.2]
      · have hok := (can_execute_iff r2).mp hce
        rcases h with h | h | h
        · exact absurd (hstat ▸ h) hok.1
        · exact absurd (hstat ▸ h) hok.2
        · have hne2 : r2.program = [] := by rw [hpc2.2]; exact h
          rw [hrf, Robot.advance_program_counter, if_neg (by simpa using hne2)]
          exact hpc2.1
    · rw [if_neg hce] at hrf
      have hfd : r2.status = .dead ∨ r2.status = .frozen := by
        by_contra hno
        push_neg at hno
        exact hce ((can_execute_iff r2).mpr ⟨hno.1, hno.2⟩)
      refine ⟨hrf ▸ hpc2.2, fun hnd hnf _ => ?_, fun _ => hrf ▸ hpc2.1⟩
      rcases hfd with h | h
      · exact absurd (hrf ▸ h) hnd
      · exact absurd (hrf ▸ h) hnf
  · -- not in the living roster: the robot was already dead at turn start
    have hdead : r.status = .dead := by
      by_contra hne
      exact hm ((mem_livingIdx gs i).mpr
        ⟨hlt, by rw [getRobot_of_get? hget]; exact (is_alive_iff r).mpr hne⟩)
    obtain ⟨r', hr', hsp, hfd'⟩ :=
      spect_carrier hget (Or.inr hdead) (spect_execute_turn gs i r hget (Or.inr hdead))
    have hrf : rf = r' := Option.some_inj.mp (hgetf.symm.trans hr')
    subst hrf
    have hdead' : rf.status = .dead := hsp.2.2.2.2.2 hdead
    exact ⟨hsp.2.2.2.1, fun hnd _ _ => absurd hdead' hnd,
      fun _ => hsp.2.2.1⟩

/-- Concrete state for the C8 witness: two normal robots with two-step and
one-step programs. -/
def c8State : GameState :=
  { arena := { width := 10, height := 10, grid := [], mines := [],
               robotsAt := [((2, 2), 0), ((8, 8), 1)] }
    robots := [{ Robot.new 1 2 2 1500 with
                 program := ["DM(E)".toList, "DM(W)".toList] },
               { Robot.new 2 8 8 1500 with program := ["DM(W)".toList] }]
    phase := .battle
    current_turn := 0
    max_turns := 100
    proximity_distance := 5
    winner_id := none
    rng := [] }

/-- Witness for claim C8: robot 0 of `c8State` has a two-instruction program
and counter 0; after one executed turn its program is unchanged and, not
being dead or frozen, its counter is (0 + 1) % 2. -/
theorem C8_program_counters_advance_witness :
    ∃ rf, (c8State.execute_turn).2.robots.get? 0 = some rf ∧
      rf.program = ["DM(E)".toList, "DM(W)".toList] ∧
      (rf.status ≠ .dead → rf.status ≠ .frozen →
        rf.program_counter = (0 + 1) % 2) := by
  rcases hrf : (c8State.execute_turn).2.robots.get? 0 with _ | rf
  · exact absurd hrf (by decide)
  · have h := C8_program_counters_advance c8State 0
      { Robot.new 1 2 2 1500 with program := ["DM(E)".toList, "DM(W)".toList] }
      rf (by decide) (by decide) hrf
    exact ⟨rf, rfl, h.1, fun hnd hnf => h.2.1 hnd hnf (by decide)⟩

end RobotWar
